import Mathlib

/-!
Verification of the cleanup-bot core (discord-bots repository).

This file gives a shallow embedding, in Lean 4, of the parts of the
cleanup-bot that the specification talks about:

* `src/cleanup-bot/src/backup/queue.rs`   — the durable `BackupQueue`
* `src/cleanup-bot/src/backup/worker.rs`  — the backup worker pass
* `src/cleanup-bot/src/cleanup/task.rs`   — the cleanup task's pagination
  loop and the bulk/individual delete partition
* `src/cleanup-bot/src/scheduler.rs`      — the scheduler tick
* `src/cleanup-bot/src/onedrive/auth.rs`  — token persistence and the
  device-code poll loop
* `src/cleanup-bot/src/onedrive/client.rs`— the simple/resumable upload
  protocol

The in-memory `HashMap<String, PendingBackup>` of the Rust code is
represented by an association list with unique keys; the file system is
represented explicitly (the content last written to the queue file, and a
counter of write operations, so "no save happened" is observable).
Timestamps and snowflake ids are `Nat`.  Fallible `Result`-returning Rust
functions whose only failure source is file I/O are modelled as total
(the claims under study all condition on the call returning success).
-/

set_option autoImplicit false

namespace CleanupBot

/-! ## Data model: `backup/queue.rs` -/

/-- Status of a pending backup (`BackupStatus` in `backup/queue.rs`). -/
inductive BackupStatus where
  | Pending
  | InProgress
  | Failed (error : String)
deriving DecidableEq, Repr

/-- A backup that is pending cloud upload (`PendingBackup` in `backup/queue.rs`).
Paths are their string form (the Rust code keys the map by
`local_path.to_string_lossy()`). -/
structure PendingBackup where
  message_id : Nat
  channel_id : Nat
  local_path : String
  original_filename : String
  timestamp : Nat
  retry_count : Nat
  status : BackupStatus
deriving DecidableEq, Repr

/-- Entries of the queue: the logical content of the
`HashMap<String, PendingBackup>`, as an association list. -/
abbrev Entries := List (String × PendingBackup)

/-- Lookup of a key (`entries.get(&key)` / `entries.get_mut(&key)`). -/
def lookupEntry (key : String) : Entries → Option PendingBackup
  | [] => none
  | (k, v) :: rest => if k = key then some v else lookupEntry key rest

/-- Insertion (`entries.insert(key, backup)`): replaces the value in place
when the key is present, otherwise appends a new binding. -/
def insertEntry (key : String) (b : PendingBackup) : Entries → Entries
  | [] => [(key, b)]
  | (k, v) :: rest =>
      if k = key then (k, b) :: rest else (k, v) :: insertEntry key b rest

/-- In-place update of the value at a key, if present
(the `if let Some(backup) = self.entries.get_mut(&key)` pattern). -/
def modifyEntry (key : String) (f : PendingBackup → PendingBackup) : Entries → Entries
  | [] => []
  | (k, v) :: rest =>
      if k = key then (k, f v) :: rest else (k, v) :: modifyEntry key f rest

/-- Removal of a key (`entries.remove(&key)`). -/
def removeEntry (key : String) : Entries → Entries
  | [] => []
  | (k, v) :: rest =>
      if k = key then rest else (k, v) :: removeEntry key rest

/-- State of a `BackupQueue` together with its backing file.
`disk` is the content last persisted to `pending_backups.toml`
(`none` when the file does not exist); `writes` counts how many times the
file has been written, so that "no save to disk was performed" is an
observable fact. -/
structure QueueState where
  entries : Entries
  disk : Option Entries
  writes : Nat
deriving DecidableEq, Repr

namespace BackupQueue

/-- `BackupQueue::save`: serialize the whole map and atomically replace the
queue file.  In the model the file content is the entry list itself. -/
def save (s : QueueState) : QueueState :=
  { s with disk := some s.entries, writes := s.writes + 1 }

/-- The normalization `load` applies to every entry read back from disk:
an `InProgress` status found at load time becomes `Pending`. -/
def resetInProgress (b : PendingBackup) : PendingBackup :=
  if b.status = BackupStatus.InProgress then { b with status := BackupStatus.Pending } else b

/-- `BackupQueue::load`: read the persisted file if present (absence gives
an empty queue), resetting every `InProgress` entry to `Pending`. -/
def load (disk : Option Entries) : Entries :=
  match disk with
  | none => []
  | some l => l.map (fun kv => (kv.1, resetInProgress kv.2))

/-- `BackupQueue::add`: insert the backup under its `local_path` key and save. -/
def add (s : QueueState) (backup : PendingBackup) : QueueState :=
  save { s with entries := insertEntry backup.local_path backup s.entries }

/-- `BackupQueue::remove`: remove the key and save. -/
def remove (s : QueueState) (local_path : String) : QueueState :=
  save { s with entries := removeEntry local_path s.entries }

/-- `BackupQueue::mark_in_progress`: if the key is present, set its status
to `InProgress` and save; otherwise do nothing and return `Ok(())`. -/
def mark_in_progress (s : QueueState) (local_path : String) : QueueState :=
  match lookupEntry local_path s.entries with
  | some _ =>
      let f := fun b => { b with status := BackupStatus.InProgress }
      save { s with entries := modifyEntry local_path f s.entries }
  | none => s

/-- `BackupQueue::mark_failed`: if the key is present, set its status to
`Failed error`, increment `retry_count`, and save; otherwise do nothing. -/
def mark_failed (s : QueueState) (local_path : String) (error : String) : QueueState :=
  match lookupEntry local_path s.entries with
  | some _ =>
      let f := fun b =>
        { b with status := BackupStatus.Failed error, retry_count := b.retry_count + 1 }
      save { s with entries := modifyEntry local_path f s.entries }
  | none => s

/-- `BackupQueue::reset_to_pending`: if the key is present, set its status
to `Pending` (leaving `retry_count` alone) and save; otherwise do nothing. -/
def reset_to_pending (s : QueueState) (local_path : String) : QueueState :=
  match lookupEntry local_path s.entries with
  | some _ =>
      let f := fun b => { b with status := BackupStatus.Pending }
      save { s with entries := modifyEntry local_path f s.entries }
  | none => s

/-- `BackupQueue::get_pending`: the entries whose status is `Pending`. -/
def get_pending (s : QueueState) : List PendingBackup :=
  (s.entries.filter (fun kv => decide (kv.2.status = BackupStatus.Pending))).map (·.2)

/-- `BackupQueue::get_failed`: the entries whose status is `Failed` and
whose `retry_count` is below `max_retries`. -/
def get_failed (s : QueueState) (max_retries : Nat) : List PendingBackup :=
  (s.entries.filter (fun kv =>
    (match kv.2.status with | BackupStatus.Failed _ => true | _ => false)
      && decide (kv.2.retry_count < max_retries))).map (·.2)

end BackupQueue

/-- Modelled from the spec: construction of a fresh `PendingBackup`.  The
enqueue site in `cleanup/task.rs` is an unimplemented TODO, so the entry
construction is taken from spec section 3: `retry_count` starts at 0 and a
newly created entry is `Pending`. -/
def mkPendingBackup (message_id channel_id : Nat) (local_path original_filename : String)
    (timestamp : Nat) : PendingBackup :=
  { message_id := message_id
    channel_id := channel_id
    local_path := local_path
    original_filename := original_filename
    timestamp := timestamp
    retry_count := 0
    status := BackupStatus.Pending }

/-! ## File-system operation traces: the persistence patterns of
`backup/queue.rs` (`save`) and `onedrive/auth.rs` (`save_tokens`). -/

/-- A primitive file-system operation performed while persisting state. -/
inductive FileOp where
  | write (path : String) (content : String)
  | rename (src : String) (dst : String)
deriving DecidableEq, Repr

/-- Canonical path of the queue file (`PENDING_BACKUPS_PATH`). -/
def PENDING_BACKUPS_PATH : String := "./pending_backups.toml"

/-- Temporary path used by the queue save (`PENDING_BACKUPS_TEMP_PATH`). -/
def PENDING_BACKUPS_TEMP_PATH : String := "./pending_backups.toml.tmp"

/-- Canonical path of the token file (`TOKENS_PATH` in `onedrive/auth.rs`). -/
def TOKENS_PATH : String := "./onedrive_tokens.json"

/-- The file operations issued by `BackupQueue::save` for a given serialized
content: write the temporary file, then rename it over the canonical path. -/
def saveOps (content : String) : List FileOp :=
  [FileOp.write PENDING_BACKUPS_TEMP_PATH content,
   FileOp.rename PENDING_BACKUPS_TEMP_PATH PENDING_BACKUPS_PATH]

/-- `StoredTokens` from `onedrive/auth.rs`. -/
structure StoredTokens where
  access_token : String
  refresh_token : String
  expires_at : Nat
deriving DecidableEq, Repr

/-- The file operations issued by `TokenStore::save_tokens` for a given
serialized content: nothing when no tokens are held, otherwise a single
direct `fs::write` to the canonical token path. -/
def save_tokens_ops (tokens : Option StoredTokens) (content : String) : List FileOp :=
  match tokens with
  | none => []
  | some _ => [FileOp.write TOKENS_PATH content]

/-- The atomic-persistence pattern the spec describes: serialize to a
temporary path and then atomically rename it over the canonical path, so
that the canonical name is never written directly. -/
def isAtomicTempRename (ops : List FileOp) (canonical : String) : Prop :=
  ∃ tmp content, tmp ≠ canonical ∧
    ops = [FileOp.write tmp content, FileOp.rename tmp canonical]

/-! ## The backup worker pass: `backup/worker.rs` (`run_worker` body and
`reset_failed_for_retry`).

One timer tick of `run_worker` is modelled as a pure function of
* the queue state,
* the set of local files that exist (`files`),
* the outcome each upload attempt would have (`uploadOk`), and
* the stringified upload error (`uploadErr`),
returning the queue state after the pass together with the list of paths
for which an upload was actually attempted.  Deletion of the local file
after a successful upload touches only that entry's own path, which is
processed exactly once per pass, so it does not feed back into the pass. -/

/-- The snapshot the worker takes at the start of a pass: the `local_path`
of every `Pending` entry. -/
def pendingPaths (s : QueueState) : List String :=
  (BackupQueue.get_pending s).map (·.local_path)

/-- Accumulator for one worker pass. -/
structure WorkerPassAcc where
  state : QueueState
  attempted : List String
deriving Repr

/-- Processing of a single snapshotted path inside the worker loop:
missing file → `mark_failed "file missing"`; entry gone → skip;
`retry_count` at the maximum → skip; otherwise `mark_in_progress`, attempt
the upload, and `remove` on success or `mark_failed` on failure. -/
def processOne (files : List String) (uploadOk : String → Bool)
    (uploadErr : String → String) (max_retries : Nat)
    (acc : WorkerPassAcc) (local_path : String) : WorkerPassAcc :=
  if local_path ∈ files then
    match lookupEntry local_path acc.state.entries with
    | none => acc
    | some backup =>
        if max_retries ≤ backup.retry_count then acc
        else
          let s1 := BackupQueue.mark_in_progress acc.state local_path
          if uploadOk local_path then
            { state := BackupQueue.remove s1 local_path
              attempted := acc.attempted ++ [local_path] }
          else
            { state := BackupQueue.mark_failed s1 local_path (uploadErr local_path)
              attempted := acc.attempted ++ [local_path] }
  else
    { acc with state := BackupQueue.mark_failed acc.state local_path "file missing" }

/-- `reset_failed_for_retry`: snapshot the paths of every `Failed` entry
with `retry_count < max_retries`, then reset each to `Pending`. -/
def reset_failed_for_retry (max_retries : Nat) (s : QueueState) : QueueState :=
  let failed_paths := (BackupQueue.get_failed s max_retries).map (·.local_path)
  failed_paths.foldl (fun st p => BackupQueue.reset_to_pending st p) s

/-- One full pass of the backup worker (`run_worker` loop body):
process the snapshot of pending paths, then reset retryable failures. -/
def run_worker_pass (files : List String) (uploadOk : String → Bool)
    (uploadErr : String → String) (max_retries : Nat) (s : QueueState) : WorkerPassAcc :=
  let r := (pendingPaths s).foldl
    (processOne files uploadOk uploadErr max_retries) ⟨s, []⟩
  { r with state := reset_failed_for_retry max_retries r.state }

/-- Well-formedness of the queue representation: every entry is keyed by
its own `local_path` (as `add` guarantees) and keys are duplicate-free (as
in the `HashMap`). -/
def WFQueue (s : QueueState) : Prop :=
  (∀ kv ∈ s.entries, kv.1 = kv.2.local_path) ∧ (s.entries.map Prod.fst).Nodup

/-! ## The delete partition: `cleanup/task.rs` (`delete_messages`).

A `DeleteJob` carries only a message id; the partition tests the message's
creation time (derived from the snowflake id) against the 14-day bulk
cutoff, so the embedding takes the creation-time map `created_at` and the
`bulk_delete_cutoff` as parameters.  The function returns the sequence of
delete attempts issued on the happy path (failed attempts are logged and
the loops continue, so the attempt sequence is the same). -/

/-- Bulk deletion is only worthwhile for at least this many messages
(`BULK_DELETE_MIN`). -/
def BULK_DELETE_MIN : Nat := 2

/-- Maximum number of messages per bulk-delete call (`BULK_DELETE_MAX`). -/
def BULK_DELETE_MAX : Nat := 100

/-- A delete attempt issued against the platform. -/
inductive DeleteAttempt where
  | bulk (ids : List Nat)
  | single (id : Nat)
deriving DecidableEq, Repr

/-- Slice chunking with explicit structural fuel; `fuel` bounds the number
of recursion steps and is chosen large enough at the call site. -/
def chunksOfAux {α : Type} (n : Nat) : List α → Nat → List (List α)
  | [], _ => []
  | x :: xs, 0 => [x :: xs]
  | x :: xs, fuel + 1 => (x :: xs).take n :: chunksOfAux n ((x :: xs).drop n) fuel

/-- Slice chunking (`bulk_jobs.chunks(n)`): successive sub-lists of length
`n`, the last one possibly shorter.  For `0 < n` the fuel `l.length` is
never exhausted, since every step drops at least one element. -/
def chunksOf {α : Type} (n : Nat) (l : List α) : List (List α) :=
  chunksOfAux n l l.length

/-- `delete_messages` from `cleanup/task.rs`, as the sequence of delete
attempts it issues.  `jobs` is the list of message ids of the delete jobs,
in order.  Note that the individual-delete loop in the source iterates
over `jobs` (all jobs), not over the computed `individual_jobs`. -/
def delete_messages (created_at : Nat → Nat) (bulk_delete_cutoff : Nat)
    (jobs : List Nat) : List DeleteAttempt :=
  let bulk0 := jobs.filter (fun j => decide (bulk_delete_cutoff < created_at j))
  let individual0 := jobs.filter (fun j => !(decide (bulk_delete_cutoff < created_at j)))
  let p := if bulk0.length < BULK_DELETE_MIN then
      (([] : List Nat), individual0 ++ bulk0)
    else (bulk0, individual0)
  let bulkAttempts := if p.1.isEmpty then [] else
    (chunksOf BULK_DELETE_MAX p.1).map DeleteAttempt.bulk
  let singleAttempts := if p.2.isEmpty then [] else
    jobs.map DeleteAttempt.single
  bulkAttempts ++ singleAttempts

/-! ## Scheduler tick and cancellation registry: `scheduler.rs`.

The `CancellationRegistry` itself (`src/cleanup-bot/src/cancellation*.rs`)
is not among the provided sources — only its callers are — so its three
operations are modelled from spec section 4.2; the per-channel
check-and-register of `run_scheduler` is taken from `scheduler.rs`, where
the `is_running` check and the `register` call sit inside one
`registry.lock()` critical section, so together they form a single atomic
step of the model. -/

/-- Modelled from the spec: `CancellationRegistry::is_running(channel)` —
whether a cleanup task is registered for the channel (section 4.2). -/
def is_running (registered : List Nat) (channel : Nat) : Bool :=
  decide (channel ∈ registered)

/-- Modelled from the spec: `CancellationRegistry::register(channel)` —
adds the channel; callers confirm absence first under the same lock
(section 4.2). -/
def register (registered : List Nat) (channel : Nat) : List Nat :=
  channel :: registered

/-- Modelled from the spec: `CancellationRegistry::deregister(channel)` —
idempotently removes the entry (section 4.2). -/
def deregister (registered : List Nat) (channel : Nat) : List Nat :=
  registered.erase channel

/-- Scheduler-level state: the registry contents plus the channels whose
`CleanupTask` has been spawned and has not yet completed. -/
structure SchedState where
  registered : List Nat
  running : List Nat
deriving DecidableEq, Repr

/-- Handling of one channel within a scheduler tick: the atomic
check-and-register step (one `registry.lock()` critical section in
`run_scheduler`) — skip the channel when a task is already registered,
otherwise register it and spawn its cleanup task. -/
def tickStep (acc : SchedState × List Nat) (ch : Nat) : SchedState × List Nat :=
  if is_running acc.1.registered ch then acc
  else ({ registered := register acc.1.registered ch,
          running := ch :: acc.1.running }, acc.2 ++ [ch])

/-- One scheduler tick (`run_scheduler` loop body): the check-and-register
step for each enabled channel in turn.  Returns the new state and the list
of channels spawned during the tick. -/
def scheduler_tick (s : SchedState) (channels : List Nat) : SchedState × List Nat :=
  channels.foldl tickStep (s, [])

/-- An event of the scheduler/cleanup system: a scheduler tick over a
snapshot of enabled channels, or the completion of the cleanup task of a
channel (whose wrapper `cleanup_channel` deregisters it). -/
inductive SchedEvent where
  | tick (channels : List Nat)
  | taskDone (channel : Nat)

/-- Transition of the scheduler system on one event. -/
def sched_step (s : SchedState) : SchedEvent → SchedState
  | SchedEvent.tick channels => (scheduler_tick s channels).1
  | SchedEvent.taskDone ch =>
      { registered := deregister s.registered ch, running := s.running.erase ch }

/-- Execution of the system from startup (empty registry, nothing running). -/
def sched_run (events : List SchedEvent) : SchedState :=
  events.foldl sched_step { registered := [], running := [] }

/-- The scheduler-system invariant: no channel has two live cleanup tasks,
and the registry contains exactly the channels with a live task (so
`is_running` answers exactly "does this channel have a live task"). -/
def SchedInv (s : SchedState) : Prop :=
  s.running.Nodup ∧ s.registered = s.running

/-! ## Upload protocol: `onedrive/client.rs` (`upload_file`,
`simple_upload`, `resumable_upload`).

`upload_file` is modelled as the sequence of HTTP requests it issues on
the happy path (every response a success), as a function of the file size
in bytes. -/

/-- Files strictly below this size use the simple upload
(`SIMPLE_UPLOAD_LIMIT`, 4 MiB). -/
def SIMPLE_UPLOAD_LIMIT : Nat := 4 * 1024 * 1024

/-- Chunk size of the resumable upload (`CHUNK_SIZE`, 10 MiB). -/
def CHUNK_SIZE : Nat := 10 * 1024 * 1024

/-- An HTTP request issued by the upload path. -/
inductive UploadRequest where
  | contentPut (size : Nat)
  | createUploadSession
  | chunkPut (first : Nat) (last : Nat) (total : Nat)
deriving DecidableEq, Repr

/-- Byte ranges of `content.chunks(cs)` with explicit structural fuel
bounding the number of chunks produced. -/
def chunkRangesAux (cs : Nat) : Nat → Nat → Nat → List (Nat × Nat)
  | _start, _remaining, 0 => []
  | start, remaining, fuel + 1 =>
      if remaining = 0 then []
      else
        let len := min cs remaining
        (start, start + len - 1) :: chunkRangesAux cs (start + len) (remaining - len) fuel

/-- The `(start, end)` byte ranges of `content.chunks(cs)` starting at
offset `start` with `remaining` bytes left: each chunk covers
`min cs remaining` bytes.  For `0 < cs` the fuel `remaining / cs + 1` is
never exhausted. -/
def chunkRanges (cs : Nat) (start remaining : Nat) : List (Nat × Nat) :=
  chunkRangesAux cs start remaining (remaining / max cs 1 + 1)

/-- `upload_file`: one `PUT` of the whole content when the size is below
the simple-upload limit; otherwise one session-creation request followed
by one `Content-Range`-tagged `PUT` per chunk of `CHUNK_SIZE` bytes. -/
def upload_file (file_size : Nat) : List UploadRequest :=
  if file_size < SIMPLE_UPLOAD_LIMIT then
    [UploadRequest.contentPut file_size]
  else
    UploadRequest.createUploadSession ::
      (chunkRanges CHUNK_SIZE 0 file_size).map
        (fun r => UploadRequest.chunkPut r.1 r.2 file_size)

/-! ## Pagination loop of the cleanup task: `cleanup/task.rs`
(`run_cleanup`, lines 56–156), with `filter_expired_messages` from
`cleanup/queue.rs`.

The channel is a list of messages in the order Discord returns them
(newest first); fetching a page with a `before` cursor keeps exactly the
messages whose id is strictly below the cursor and takes the first
`MAX_MESSAGES_PER_FETCH` of them.  Cancellation never fires in the runs
the claim is about, so it is not modelled.  The loop returns the final
cursor, the accumulated expired messages, the `reached_end` flag, and the
list of cursor values used for the successive fetches. -/

/-- Page size requested from the platform (`MAX_MESSAGES_PER_FETCH`). -/
def MAX_MESSAGES_PER_FETCH : Nat := 100

/-- Target number of expired messages per invocation
(`TARGET_EXPIRED_MESSAGES`). -/
def TARGET_EXPIRED_MESSAGES : Nat := 100

/-- Bound on pagination rounds per invocation (`MAX_PAGINATION_ROUNDS`). -/
def MAX_PAGINATION_ROUNDS : Nat := 10

/-- A chat message: its snowflake id and its timestamp (larger = newer). -/
structure Msg where
  id : Nat
  timestamp : Nat
deriving DecidableEq, Repr

/-- One paginated fetch (`channel_id.messages` with `GetMessages`):
all messages strictly before the cursor (all messages when there is no
cursor), first page of `MAX_MESSAGES_PER_FETCH`. -/
def fetchMessages (channel : List Msg) (cursor : Option Nat) : List Msg :=
  let base : List Msg := match cursor with
    | some before_id => channel.filter (fun m => decide (m.id < before_id))
    | none => channel
  base.take MAX_MESSAGES_PER_FETCH

/-- `filter_expired_messages` from `cleanup/queue.rs`: keep the messages
whose timestamp is strictly below the retention cutoff. -/
def filter_expired_messages (messages : List Msg) (cutoff : Nat) : List Msg :=
  messages.filter (fun m => decide (m.timestamp < cutoff))

/-- Result of the pagination loop. -/
structure PaginationResult where
  cursorFinal : Option Nat
  expired : List Msg
  reachedEnd : Bool
  fetchCursors : List (Option Nat)
deriving DecidableEq, Repr

/-- The pagination loop of `run_cleanup` (`for round in 0..MAX_PAGINATION_ROUNDS`),
with `fuel` rounds left.  Each executed round fetches a page at the
current cursor; an empty page sets `reached_end` and exits; otherwise the
cursor advances to the oldest (last) message of the page, a page shorter
than the requested size sets `reached_end`, the expired messages of the
page are accumulated, reaching `TARGET_EXPIRED_MESSAGES` truncates the
accumulation, moves the cursor to the oldest retained message and exits,
and `reached_end` exits. -/
def paginationLoop (channel : List Msg) (cutoff : Nat) :
    Nat → Option Nat → List Msg → PaginationResult
  | 0, cursor, expired =>
      { cursorFinal := cursor, expired := expired, reachedEnd := false, fetchCursors := [] }
  | fuel + 1, cursor, expired =>
      let messages := fetchMessages channel cursor
      if messages.isEmpty then
        { cursorFinal := cursor, expired := expired, reachedEnd := true,
          fetchCursors := [cursor] }
      else
        let cursor1 := match messages.getLast? with
          | some oldest => some oldest.id
          | none => cursor
        let reachedEnd1 := decide (messages.length < MAX_MESSAGES_PER_FETCH)
        let expired1 := expired ++ filter_expired_messages messages cutoff
        if TARGET_EXPIRED_MESSAGES ≤ expired1.length then
          let expired2 := expired1.take TARGET_EXPIRED_MESSAGES
          let cursor2 := match expired2.getLast? with
            | some oldest => some oldest.id
            | none => cursor1
          { cursorFinal := cursor2, expired := expired2, reachedEnd := reachedEnd1,
            fetchCursors := [cursor] }
        else if reachedEnd1 then
          { cursorFinal := cursor1, expired := expired1, reachedEnd := true,
            fetchCursors := [cursor] }
        else
          let r := paginationLoop channel cutoff fuel cursor1 expired1
          { r with fetchCursors := cursor :: r.fetchCursors }

/-- The pagination part of one `run_cleanup` invocation: run the loop from
the stored cursor, then persist the cursor — cleared when end-of-history
was reached, the advanced cursor otherwise. -/
def run_cleanup_pagination (channel : List Msg) (cutoff : Nat)
    (storedCursor : Option Nat) : PaginationResult × Option Nat :=
  let r := paginationLoop channel cutoff MAX_PAGINATION_ROUNDS storedCursor []
  (r, if r.reachedEnd then none else r.cursorFinal)

/-- Strict "moves to an older id" relation between the cursors of two
successive fetches: the later fetch always has a cursor, and it is
strictly below the earlier one whenever the earlier fetch had one. -/
def cursorStep : Option Nat → Option Nat → Prop
  | _, none => False
  | none, some _ => True
  | some x, some y => y < x

/-! ## Device-code poll loop: `onedrive/auth.rs` (`device_code_flow`,
poll loop at lines 139–189).

The loop is modelled over the script of token-endpoint responses it will
receive, with explicit time: `now` advances by the poll interval at every
sleep and by 5 extra seconds after a `slow_down` error.  The result
records the outcome and the times at which the endpoint was polled. -/

/-- A response of the token endpoint to one poll. -/
inductive PollResponse where
  | success
  | err (name : String)
deriving DecidableEq, Repr

/-- Terminal outcome of the poll loop. -/
inductive PollOutcome where
  | authenticated
  | fatalError (name : String)
  | expired
  | scriptExhausted
deriving DecidableEq, Repr

/-- Result of the poll loop: its outcome and the poll instants. -/
structure PollTrace where
  outcome : PollOutcome
  pollTimes : List Nat
deriving DecidableEq, Repr

/-- The poll loop of `device_code_flow`: at each iteration, first fail
with `expired` when the deadline has passed, otherwise sleep for the poll
interval and poll; a success response stores the tokens and succeeds; an
`authorization_pending` error continues; a `slow_down` error sleeps 5
extra seconds and continues; any other error is a fatal authentication
error.  `scriptExhausted` is an artifact marking the end of the scripted
responses. -/
def device_code_poll (interval deadline : Nat) :
    Nat → List PollResponse → PollTrace
  | now, [] =>
      if deadline < now then { outcome := PollOutcome.expired, pollTimes := [] }
      else { outcome := PollOutcome.scriptExhausted, pollTimes := [] }
  | now, r :: rest =>
      if deadline < now then { outcome := PollOutcome.expired, pollTimes := [] }
      else
        let t := now + interval
        match r with
        | PollResponse.success =>
            { outcome := PollOutcome.authenticated, pollTimes := [t] }
        | PollResponse.err e =>
            if e = "authorization_pending" then
              let q := device_code_poll interval deadline t rest
              { q with pollTimes := t :: q.pollTimes }
            else if e = "slow_down" then
              let q := device_code_poll interval deadline (t + 5) rest
              { q with pollTimes := t :: q.pollTimes }
            else { outcome := PollOutcome.fatalError e, pollTimes := [t] }

/-! ## Demonstration values used by witnesses and counterexamples. -/

/-- A freshly created pending backup for the path `"a"`. -/
def demoBackup : PendingBackup := mkPendingBackup 1 2 "a" "f" 0

/-- A queue holding exactly `demoBackup`, synchronized with its disk file. -/
def demoQueue : QueueState :=
  { entries := [("a", demoBackup)], disk := some [("a", demoBackup)], writes := 0 }

/-- A 150-message channel, newest first: ids 150 down to 1, all with
timestamp 0. -/
def demoChannel : List Msg := (List.range 150).reverse.map (fun i => ⟨i + 1, 0⟩)

/-- The entries of the in-memory queue with every `InProgress` status
normalized to `Pending` — exactly what `load` yields from a disk file
holding those entries. -/
def normalizeEntries (l : Entries) : Entries :=
  l.map (fun kv => (kv.1, BackupQueue.resetInProgress kv.2))

/-! ## Association-list lemmas -/

theorem lookupEntry_insertEntry (k p : String) (b : PendingBackup) (l : Entries) :
    lookupEntry k (insertEntry p b l) = if k = p then some b else lookupEntry k l := by
  induction l with
  | nil =>
      by_cases h : k = p <;> simp [insertEntry, lookupEntry, h, eq_comm]
  | cons hd tl ih =>
      obtain ⟨hk, hv⟩ := hd
      by_cases h1 : hk = p <;> by_cases h2 : k = p <;>
        simp_all [insertEntry, lookupEntry] <;> simp [eq_comm] at * <;> simp_all

theorem lookupEntry_modifyEntry (k p : String) (f : PendingBackup → PendingBackup)
    (l : Entries) :
    lookupEntry k (modifyEntry p f l) =
      if k = p then (lookupEntry k l).map f else lookupEntry k l := by
  induction l with
  | nil => by_cases h : k = p <;> simp [modifyEntry, lookupEntry, h]
  | cons hd tl ih =>
      obtain ⟨hk, hv⟩ := hd
      by_cases h1 : hk = p <;> by_cases h2 : k = p <;>
        simp_all [modifyEntry, lookupEntry] <;> simp [eq_comm] at * <;> simp_all

theorem lookupEntry_removeEntry_ne (k p : String) (l : Entries) (h : k ≠ p) :
    lookupEntry k (removeEntry p l) = lookupEntry k l := by
  induction l with
  | nil => simp [removeEntry]
  | cons hd tl ih =>
      obtain ⟨hk, hv⟩ := hd
      by_cases h1 : hk = p <;> by_cases h2 : hk = k <;>
        simp_all [removeEntry, lookupEntry]

theorem lookupEntry_eq_none_of_not_mem (p : String) (l : Entries)
    (h : p ∉ l.map Prod.fst) : lookupEntry p l = none := by
  induction l with
  | nil => simp [lookupEntry]
  | cons hd tl ih =>
      simp only [List.map_cons, List.mem_cons, not_or] at h
      simp [lookupEntry, Ne.symm h.1, ih h.2]

theorem lookupEntry_removeEntry_self (p : String) (l : Entries)
    (h : (l.map Prod.fst).Nodup) : lookupEntry p (removeEntry p l) = none := by
  induction l with
  | nil => simp [removeEntry, lookupEntry]
  | cons hd tl ih =>
      obtain ⟨hk, hv⟩ := hd
      simp only [List.map_cons, List.nodup_cons] at h
      by_cases h1 : hk = p
      · subst h1
        simpa [removeEntry] using lookupEntry_eq_none_of_not_mem hk tl h.1
      · simp [removeEntry, lookupEntry, h1, ih h.2]

/-! Lookup behaviour of each queue operation. -/

theorem lookupEntry_mark_failed (s : QueueState) (p e k : String) :
    lookupEntry k (BackupQueue.mark_failed s p e).entries =
      if k = p then
        (lookupEntry k s.entries).map
          (fun b => { b with status := BackupStatus.Failed e,
                             retry_count := b.retry_count + 1 })
      else lookupEntry k s.entries := by
  cases hm : lookupEntry p s.entries with
  | none =>
      by_cases hk : k = p
      · subst hk; simp [BackupQueue.mark_failed, hm]
      · simp [BackupQueue.mark_failed, hm, hk]
  | some b =>
      simp [BackupQueue.mark_failed, hm, BackupQueue.save, lookupEntry_modifyEntry]

theorem lookupEntry_mark_in_progress (s : QueueState) (p k : String) :
    lookupEntry k (BackupQueue.mark_in_progress s p).entries =
      if k = p then
        (lookupEntry k s.entries).map
          (fun b => { b with status := BackupStatus.InProgress })
      else lookupEntry k s.entries := by
  cases hm : lookupEntry p s.entries with
  | none =>
      by_cases hk : k = p
      · subst hk; simp [BackupQueue.mark_in_progress, hm]
      · simp [BackupQueue.mark_in_progress, hm, hk]
  | some b =>
      simp [BackupQueue.mark_in_progress, hm, BackupQueue.save, lookupEntry_modifyEntry]

theorem lookupEntry_reset_to_pending (s : QueueState) (p k : String) :
    lookupEntry k (BackupQueue.reset_to_pending s p).entries =
      if k = p then
        (lookupEntry k s.entries).map
          (fun b => { b with status := BackupStatus.Pending })
      else lookupEntry k s.entries := by
  cases hm : lookupEntry p s.entries with
  | none =>
      by_cases hk : k = p
      · subst hk; simp [BackupQueue.reset_to_pending, hm]
      · simp [BackupQueue.reset_to_pending, hm, hk]
  | some b =>
      simp [BackupQueue.reset_to_pending, hm, BackupQueue.save, lookupEntry_modifyEntry]

theorem lookupEntry_remove (s : QueueState) (p k : String) (hk : k ≠ p) :
    lookupEntry k (BackupQueue.remove s p).entries = lookupEntry k s.entries :=
  lookupEntry_removeEntry_ne k p s.entries hk

theorem lookupEntry_add (s : QueueState) (b : PendingBackup) (k : String) :
    lookupEntry k (BackupQueue.add s b).entries =
      if k = b.local_path then some b else lookupEntry k s.entries := by
  simp [BackupQueue.add, BackupQueue.save, lookupEntry_insertEntry]

/-! ## Claim C10 -/

/-- C10: for a local path with no entry in the queue, `mark_in_progress`,
`mark_failed`, and `reset_to_pending` return success while leaving the
whole state — in-memory entries, the on-disk file, and the count of disk
writes (so: no save performed) — completely unchanged. -/
theorem C10_missing_key_ops_are_noops (s : QueueState) (p e : String)
    (h : lookupEntry p s.entries = none) :
    BackupQueue.mark_in_progress s p = s ∧
    BackupQueue.mark_failed s p e = s ∧
    BackupQueue.reset_to_pending s p = s := by
  refine ⟨?_, ?_, ?_⟩ <;>
    simp [BackupQueue.mark_in_progress, BackupQueue.mark_failed,
      BackupQueue.reset_to_pending, h]

/-- Witness for C10 at a concrete queue and a key not present in it. -/
theorem C10_missing_key_ops_are_noops_witness :
    BackupQueue.mark_in_progress demoQueue "zzz" = demoQueue ∧
    BackupQueue.mark_failed demoQueue "zzz" "err" = demoQueue ∧
    BackupQueue.reset_to_pending demoQueue "zzz" = demoQueue :=
  C10_missing_key_ops_are_noops demoQueue "zzz" "err" (by decide)

/-! ## Claim C3 -/

/-- C3 counterexample: after a successful `mark_in_progress`, reloading the
queue from disk does not yield the in-memory state — `load` resets the
`InProgress` status back to `Pending`, so the reloaded entry differs from
the in-memory one. -/
theorem C3_reload_after_mark_in_progress_differs :
    BackupQueue.load (BackupQueue.mark_in_progress demoQueue "a").disk ≠
      (BackupQueue.mark_in_progress demoQueue "a").entries := by
  decide

/-- C3 amended: after any successful mutating call (`add`, `remove`,
`mark_in_progress`, `mark_failed`, `reset_to_pending`), reloading the
queue from disk yields the in-memory state with every `InProgress` status
normalized to `Pending` (hence exactly the in-memory state whenever no
entry is `InProgress`), provided disk and memory agreed in that sense
before the call — as they do from startup on, since every save writes the
full in-memory state. -/
theorem C3_durability_modulo_in_progress (s : QueueState) (b : PendingBackup)
    (p e : String)
    (h : BackupQueue.load s.disk = normalizeEntries s.entries) :
    BackupQueue.load (BackupQueue.add s b).disk =
        normalizeEntries (BackupQueue.add s b).entries ∧
    BackupQueue.load (BackupQueue.remove s p).disk =
        normalizeEntries (BackupQueue.remove s p).entries ∧
    BackupQueue.load (BackupQueue.mark_in_progress s p).disk =
        normalizeEntries (BackupQueue.mark_in_progress s p).entries ∧
    BackupQueue.load (BackupQueue.mark_failed s p e).disk =
        normalizeEntries (BackupQueue.mark_failed s p e).entries ∧
    BackupQueue.load (BackupQueue.reset_to_pending s p).disk =
        normalizeEntries (BackupQueue.reset_to_pending s p).entries := by
  refine ⟨?_, ?_, ?_, ?_, ?_⟩
  · simp [BackupQueue.add, BackupQueue.save, BackupQueue.load, normalizeEntries]
  · simp [BackupQueue.remove, BackupQueue.save, BackupQueue.load, normalizeEntries]
  · cases hm : lookupEntry p s.entries with
    | none => simpa [BackupQueue.mark_in_progress, hm] using h
    | some b =>
        simp [BackupQueue.mark_in_progress, hm, BackupQueue.save,
          BackupQueue.load, normalizeEntries]
  · cases hm : lookupEntry p s.entries with
    | none => simpa [BackupQueue.mark_failed, hm] using h
    | some b =>
        simp [BackupQueue.mark_failed, hm, BackupQueue.save,
          BackupQueue.load, normalizeEntries]
  · cases hm : lookupEntry p s.entries with
    | none => simpa [BackupQueue.reset_to_pending, hm] using h
    | some b =>
        simp [BackupQueue.reset_to_pending, hm, BackupQueue.save,
          BackupQueue.load, normalizeEntries]

/-- Witness for the amended C3 at a concrete synchronized queue. -/
theorem C3_durability_modulo_in_progress_witness :
    BackupQueue.load (BackupQueue.add demoQueue demoBackup).disk =
      normalizeEntries (BackupQueue.add demoQueue demoBackup).entries ∧
    BackupQueue.load (BackupQueue.mark_in_progress demoQueue "a").disk =
      normalizeEntries (BackupQueue.mark_in_progress demoQueue "a").entries := by
  have h := C3_durability_modulo_in_progress demoQueue demoBackup "a" "err" (by decide)
  exact ⟨h.1, h.2.2.1⟩

/-! ## Claim C5 -/

/-- C5 counterexample: persisting the token store does not follow the
write-temporary-then-rename pattern — `save_tokens` writes the canonical
token path directly with a single `fs::write`, with no temporary file and
no rename. -/
theorem C5_token_save_not_atomic :
    ¬ isAtomicTempRename
        (save_tokens_ops (some ⟨"acc", "ref", 0⟩) "serialized-tokens") TOKENS_PATH := by
  rintro ⟨tmp, content, hne, heq⟩
  simp [save_tokens_ops] at heq

/-- C5 amended: the backup-queue file is persisted with the
write-temporary-then-atomic-rename pattern, but the token store is not:
`save_tokens` performs one direct write to the canonical token path (and
no operation at all when no tokens are held). -/
theorem C5_persistence_patterns (content : String) (t : StoredTokens) :
    isAtomicTempRename (saveOps content) PENDING_BACKUPS_PATH ∧
    save_tokens_ops (some t) content = [FileOp.write TOKENS_PATH content] ∧
    save_tokens_ops none content = [] :=
  ⟨⟨PENDING_BACKUPS_TEMP_PATH, content, by decide, rfl⟩, rfl, rfl⟩

/-! ## Claim C6 -/

/-- C6: over a queue with well-formed (duplicate-free) keys,
`mark_failed` on a present entry increments its `retry_count` by exactly 1
(setting the `Failed` status); `reset_to_pending` and `mark_in_progress`
leave every entry's `retry_count` unchanged; neither `mark_failed` nor
`remove` ever decreases any surviving entry's `retry_count`; and a fresh
`add` stores the entry with `retry_count = 0`.  The fresh-entry
construction is modelled from the spec (section 3), the enqueue site being
an unimplemented TODO in the source. -/
theorem C6_retry_count_discipline (s : QueueState) (p e : String)
    (mid cid : Nat) (fname : String) (ts : Nat)
    (hnd : (s.entries.map Prod.fst).Nodup) :
    (∀ b, lookupEntry p s.entries = some b →
      lookupEntry p (BackupQueue.mark_failed s p e).entries =
        some { b with status := BackupStatus.Failed e,
                      retry_count := b.retry_count + 1 }) ∧
    (∀ k, (lookupEntry k (BackupQueue.reset_to_pending s p).entries).map
        PendingBackup.retry_count =
      (lookupEntry k s.entries).map PendingBackup.retry_count) ∧
    (∀ k, (lookupEntry k (BackupQueue.mark_in_progress s p).entries).map
        PendingBackup.retry_count =
      (lookupEntry k s.entries).map PendingBackup.retry_count) ∧
    (∀ k b b', lookupEntry k s.entries = some b →
      lookupEntry k (BackupQueue.mark_failed s p e).entries = some b' →
      b.retry_count ≤ b'.retry_count) ∧
    (∀ k b b', lookupEntry k s.entries = some b →
      lookupEntry k (BackupQueue.remove s p).entries = some b' →
      b.retry_count ≤ b'.retry_count) ∧
    lookupEntry p (BackupQueue.add s (mkPendingBackup mid cid p fname ts)).entries =
      some (mkPendingBackup mid cid p fname ts) ∧
    (mkPendingBackup mid cid p fname ts).retry_count = 0 := by
  refine ⟨?_, ?_, ?_, ?_, ?_, ?_, rfl⟩
  · intro b hb
    simp [lookupEntry_mark_failed, hb]
  · intro k
    by_cases hk : k = p
    · subst hk
      cases hkv : lookupEntry k s.entries <;>
        simp [lookupEntry_reset_to_pending, hkv]
    · simp [lookupEntry_reset_to_pending, hk]
  · intro k
    by_cases hk : k = p
    · subst hk
      cases hkv : lookupEntry k s.entries <;>
        simp [lookupEntry_mark_in_progress, hkv]
    · simp [lookupEntry_mark_in_progress, hk]
  · intro k b b' hb hb'
    rw [lookupEntry_mark_failed] at hb'
    by_cases hk : k = p
    · rw [if_pos hk, hb] at hb'
      simp only [Option.map_some'] at hb'
      cases hb'
      exact Nat.le_succ _
    · rw [if_neg hk, hb] at hb'
      cases hb'
      exact le_refl _
  · intro k b b' hb hb'
    by_cases hk : k = p
    · rw [hk] at hb'
      rw [show (BackupQueue.remove s p).entries = removeEntry p s.entries from rfl,
        lookupEntry_removeEntry_self p s.entries hnd] at hb'
      cases hb'
    · rw [lookupEntry_remove s p k hk, hb] at hb'
      cases hb'
      exact le_refl _
  · simp [lookupEntry_add, mkPendingBackup]

/-- Witness for C6 at a concrete queue. -/
theorem C6_retry_count_discipline_witness :
    (∀ b, lookupEntry "a" demoQueue.entries = some b →
      lookupEntry "a" (BackupQueue.mark_failed demoQueue "a" "err").entries =
        some { b with status := BackupStatus.Failed "err",
                      retry_count := b.retry_count + 1 }) ∧
    lookupEntry "b" (BackupQueue.add demoQueue (mkPendingBackup 9 9 "b" "g" 0)).entries =
      some (mkPendingBackup 9 9 "b" "g" 0) := by
  have h := C6_retry_count_discipline demoQueue "a" "err" 9 9 "g" 0 (by decide)
  exact ⟨h.1, by
    have := C6_retry_count_discipline demoQueue "b" "err" 9 9 "g" 0 (by decide)
    exact this.2.2.2.2.2.1⟩

/-! ## Claim C1 -/

/-- C1: the claimed exact bulk/individual partition fails on the code.
With creation time equal to the message id and cutoff 10, jobs 20 and 21
are bulk-eligible (at least `BULK_DELETE_MIN` of them) and job 5 is not;
the code bulk-deletes (20, 21) and then — because the individual loop in
`delete_messages` iterates over `jobs` instead of the computed
`individual_jobs` — individually deletes all three jobs, so the
bulk-eligible jobs each receive two delete attempts rather than one. -/
theorem C1_bulk_eligible_jobs_also_deleted_individually :
    delete_messages (fun j => j) 10 [20, 21, 5] =
      [DeleteAttempt.bulk [20, 21], DeleteAttempt.single 20,
       DeleteAttempt.single 21, DeleteAttempt.single 5] ∧
    DeleteAttempt.bulk [20, 21] ∈ delete_messages (fun j => j) 10 [20, 21, 5] ∧
    DeleteAttempt.single 20 ∈ delete_messages (fun j => j) 10 [20, 21, 5] := by
  refine ⟨by decide, ?_, ?_⟩ <;> decide

/-! ## Claim C4 -/

theorem tickStep_keeps (acc : SchedState × List Nat) (c ch : Nat)
    (h1 : ch ∈ acc.1.registered) (h2 : ch ∉ acc.2) :
    ch ∈ (tickStep acc c).1.registered ∧ ch ∉ (tickStep acc c).2 := by
  unfold tickStep
  by_cases hc : is_running acc.1.registered c
  · simp [hc, h1, h2]
  · have hcm : c ∉ acc.1.registered := by
      simpa [is_running] using hc
    have hne : ch ≠ c := fun he => hcm (he ▸ h1)
    simp [hc, register, h1, h2, hne]

theorem tick_fold_keeps (channels : List Nat) :
    ∀ (acc : SchedState × List Nat) (ch : Nat),
      ch ∈ acc.1.registered → ch ∉ acc.2 →
      ch ∉ (channels.foldl tickStep acc).2 := by
  induction channels with
  | nil => intro acc ch h1 h2; simpa using h2
  | cons c cs ih =>
      intro acc ch h1 h2
      have h := tickStep_keeps acc c ch h1 h2
      simpa using ih (tickStep acc c) ch h.1 h.2

theorem tickStep_inv (acc : SchedState × List Nat) (c : Nat)
    (h : SchedInv acc.1) : SchedInv (tickStep acc c).1 := by
  by_cases hc : is_running acc.1.registered c
  · simpa [tickStep, hc] using h
  · have hstep : tickStep acc c =
        ({ registered := register acc.1.registered c,
           running := c :: acc.1.running }, acc.2 ++ [c]) := by
      simp [tickStep, hc]
    have hcm : c ∉ acc.1.registered := by
      simpa [is_running] using hc
    have hcr : c ∉ acc.1.running := by
      rw [← h.2]; exact hcm
    rw [hstep]
    exact ⟨List.nodup_cons.mpr ⟨hcr, h.1⟩, by simp [register, h.2]⟩

theorem tick_fold_inv (channels : List Nat) :
    ∀ acc : SchedState × List Nat, SchedInv acc.1 →
      SchedInv ((channels.foldl tickStep acc)).1 := by
  induction channels with
  | nil => intro acc h; simpa using h
  | cons c cs ih =>
      intro acc h
      simpa using ih (tickStep acc c) (tickStep_inv acc c h)

theorem sched_step_inv (s : SchedState) (ev : SchedEvent)
    (h : SchedInv s) : SchedInv (sched_step s ev) := by
  cases ev with
  | tick channels => exact tick_fold_inv channels (s, []) h
  | taskDone ch =>
      refine ⟨h.1.erase ch, ?_⟩
      simp [sched_step, deregister, h.2]

theorem sched_run_inv (events : List SchedEvent) : SchedInv (sched_run events) := by
  have aux : ∀ (evs : List SchedEvent) (s : SchedState), SchedInv s →
      SchedInv (evs.foldl sched_step s) := by
    intro evs
    induction evs with
    | nil => intro s h; simpa using h
    | cons e es ih =>
        intro s h
        simpa using ih (sched_step s e) (sched_step_inv s e h)
  exact aux events _ ⟨List.nodup_nil, rfl⟩

/-- C4: a scheduler tick spawns no cleanup task for a channel that is
still registered when the tick processes it (the channel is skipped with
no queuing and no error); the check and the registration are one atomic
`tickStep` of the model, mirroring the single `registry.lock()` critical
section of `run_scheduler`; and consequently, along every event
interleaving of ticks and task completions, at most one cleanup task is
live per channel at any time, with the registry containing exactly the
channels of the live tasks.  The registry operations themselves are
modelled from spec section 4.2, their source file not being among the
provided sources. -/
theorem C4_at_most_one_task_per_channel :
    (∀ (s : SchedState) (channels : List Nat) (ch : Nat),
      ch ∈ s.registered → ch ∉ (scheduler_tick s channels).2) ∧
    (∀ events : List SchedEvent,
      (sched_run events).running.Nodup ∧
      (sched_run events).registered = (sched_run events).running) := by
  constructor
  · intro s channels ch h
    exact tick_fold_keeps channels (s, []) ch h (by simp)
  · intro events
    exact sched_run_inv events

/-- Witness for C4: a channel with a still-registered task is not spawned
again by a tick, evaluated on a concrete state and a concrete event
interleaving. -/
theorem C4_at_most_one_task_per_channel_witness :
    (5 ∉ (scheduler_tick { registered := [5], running := [5] } [5, 7]).2) ∧
    ((sched_run [SchedEvent.tick [1, 2], SchedEvent.taskDone 1,
        SchedEvent.tick [1, 2]]).running.Nodup ∧
      (sched_run [SchedEvent.tick [1, 2], SchedEvent.taskDone 1,
        SchedEvent.tick [1, 2]]).registered =
      (sched_run [SchedEvent.tick [1, 2], SchedEvent.taskDone 1,
        SchedEvent.tick [1, 2]]).running) :=
  ⟨C4_at_most_one_task_per_channel.1 { registered := [5], running := [5] } [5, 7] 5
      (by decide),
   C4_at_most_one_task_per_channel.2 _⟩

/-! ## Claim C7 -/

theorem chunkRangesAux_zero (cs : Nat) (fuel start : Nat) :
    chunkRangesAux cs start 0 fuel = [] := by
  cases fuel <;> simp [chunkRangesAux]

theorem chunkRangesAux_length (cs : Nat) (hcs : 0 < cs) :
    ∀ (fuel start remaining : Nat), remaining ≤ cs * fuel →
      (chunkRangesAux cs start remaining fuel).length = (remaining + cs - 1) / cs := by
  intro fuel
  induction fuel with
  | zero =>
      intro start remaining h
      have h0 : remaining = 0 := by simpa using h
      subst h0
      simp only [chunkRangesAux, List.length_nil]
      symm
      apply Nat.div_eq_of_lt
      omega
  | succ n ih =>
      intro start remaining h
      by_cases h0 : remaining = 0
      · subst h0
        simp only [chunkRangesAux, if_pos rfl, List.length_nil]
        symm
        apply Nat.div_eq_of_lt
        omega
      · simp only [chunkRangesAux, if_neg h0, List.length_cons]
        by_cases hcr : remaining ≤ cs
        · have hmin : min cs remaining = remaining := Nat.min_eq_right hcr
          rw [hmin, Nat.sub_self, chunkRangesAux_zero]
          simp only [List.length_nil]
          symm
          apply Nat.div_eq_of_lt_le
          · omega
          · rw [Nat.succ_mul]
            omega
        · have hmin : min cs remaining = cs := Nat.min_eq_left (by omega)
          rw [hmin]
          rw [Nat.mul_succ] at h
          rw [ih (start + cs) (remaining - cs) (by omega)]
          have e1 : remaining - cs + cs - 1 = remaining - 1 := by omega
          have e2 : remaining + cs - 1 = (remaining - 1) + cs := by omega
          rw [e1, e2, Nat.add_div_right _ hcs]

theorem chunkRangesAux_getLast (cs : Nat) (hcs : 0 < cs) :
    ∀ (fuel start remaining : Nat), 0 < remaining → remaining ≤ cs * fuel →
      ((chunkRangesAux cs start remaining fuel).getLast?).map Prod.snd =
        some (start + remaining - 1) := by
  intro fuel
  induction fuel with
  | zero =>
      intro start remaining h1 h2
      have : remaining = 0 := by simpa using h2
      omega
  | succ n ih =>
      intro start remaining h1 h2
      have h0 : ¬ remaining = 0 := by omega
      simp only [chunkRangesAux, if_neg h0]
      by_cases hcr : remaining ≤ cs
      · have hmin : min cs remaining = remaining := Nat.min_eq_right hcr
        rw [hmin, Nat.sub_self, chunkRangesAux_zero]
        simp
      · have hmin : min cs remaining = cs := Nat.min_eq_left (by omega)
        rw [hmin]
        rw [Nat.mul_succ] at h2
        have hrec := ih (start + cs) (remaining - cs) (by omega) (by omega)
        cases hrest : chunkRangesAux cs (start + cs) (remaining - cs) n with
        | nil => rw [hrest] at hrec; simp at hrec
        | cons b tl =>
            rw [hrest] at hrec
            rw [List.getLast?_cons_cons]
            rw [hrec]
            congr 1
            omega

theorem chunkRanges_fuel_enough (cs remaining : Nat) (hcs : 0 < cs) :
    remaining ≤ cs * (remaining / max cs 1 + 1) := by
  have hmax : max cs 1 = cs := Nat.max_eq_left hcs
  rw [hmax, Nat.mul_succ]
  have hdm : cs * (remaining / cs) + remaining % cs = remaining :=
    Nat.div_add_mod remaining cs
  have hmod : remaining % cs < cs := Nat.mod_lt _ hcs
  omega

theorem chunkRanges_length (cs start remaining : Nat) (hcs : 0 < cs) :
    (chunkRanges cs start remaining).length = (remaining + cs - 1) / cs :=
  chunkRangesAux_length cs hcs _ start remaining
    (chunkRanges_fuel_enough cs remaining hcs)

theorem chunkRanges_getLast (cs start remaining : Nat) (hcs : 0 < cs)
    (hr : 0 < remaining) :
    ((chunkRanges cs start remaining).getLast?).map Prod.snd =
      some (start + remaining - 1) :=
  chunkRangesAux_getLast cs hcs _ start remaining hr
    (chunkRanges_fuel_enough cs remaining hcs)

/-- C7: a file strictly below the 4 MiB simple-upload limit is uploaded
with exactly one content-upload request; a file at or above it issues one
session-creation request followed by one chunk `PUT` per 10 MiB chunk —
`N = ceil(file_size / CHUNK_SIZE)` of them — and the final chunk's
`Content-Range` upper bound is `file_size - 1`. -/
theorem C7_upload_request_pattern (file_size : Nat) :
    (file_size < SIMPLE_UPLOAD_LIMIT →
      upload_file file_size = [UploadRequest.contentPut file_size]) ∧
    (SIMPLE_UPLOAD_LIMIT ≤ file_size →
      upload_file file_size = UploadRequest.createUploadSession ::
          (chunkRanges CHUNK_SIZE 0 file_size).map
            (fun r => UploadRequest.chunkPut r.1 r.2 file_size) ∧
      (chunkRanges CHUNK_SIZE 0 file_size).length =
        (file_size + CHUNK_SIZE - 1) / CHUNK_SIZE ∧
      ((chunkRanges CHUNK_SIZE 0 file_size).getLast?).map Prod.snd =
        some (file_size - 1)) := by
  constructor
  · intro h
    simp [upload_file, h]
  · intro h
    have hcs : 0 < CHUNK_SIZE := by decide
    have hfs : 0 < file_size := by
      have : (0 : Nat) < SIMPLE_UPLOAD_LIMIT := by decide
      omega
    refine ⟨by simp [upload_file, Nat.not_lt.mpr h], chunkRanges_length _ _ _ hcs, ?_⟩
    simpa using chunkRanges_getLast CHUNK_SIZE 0 file_size hcs hfs

/-- Witness for C7 at a 100-byte file and a `2 * CHUNK_SIZE + 1`-byte file
(three chunks, the last a single byte). -/
theorem C7_upload_request_pattern_witness :
    upload_file 100 = [UploadRequest.contentPut 100] ∧
    upload_file 20971521 = UploadRequest.createUploadSession ::
        (chunkRanges CHUNK_SIZE 0 20971521).map
          (fun r => UploadRequest.chunkPut r.1 r.2 20971521) ∧
    (chunkRanges CHUNK_SIZE 0 20971521).length =
      (20971521 + CHUNK_SIZE - 1) / CHUNK_SIZE ∧
    ((chunkRanges CHUNK_SIZE 0 20971521).getLast?).map Prod.snd =
      some (20971521 - 1) :=
  ⟨(C7_upload_request_pattern 100).1 (by decide),
   (C7_upload_request_pattern 20971521).2 (by decide)⟩

/-! ## Claim C9 -/

theorem device_code_poll_head (i d n : Nat) (r : PollResponse)
    (rs : List PollResponse) (h : ¬ d < n) :
    ∃ tl, (device_code_poll i d n (r :: rs)).pollTimes = (n + i) :: tl := by
  cases r with
  | success => exact ⟨[], by simp [device_code_poll, h]⟩
  | err e =>
      by_cases h1 : e = "authorization_pending"
      · refine ⟨(device_code_poll i d (n + i) rs).pollTimes, ?_⟩
        simp [device_code_poll, h, h1]
      · by_cases h2 : e = "slow_down"
        · refine ⟨(device_code_poll i d (n + i + 5) rs).pollTimes, ?_⟩
          simp [device_code_poll, h, h1, h2]
        · exact ⟨[], by simp [device_code_poll, h, h1, h2]⟩

theorem device_code_poll_pending (i d n : Nat) (rest : List PollResponse)
    (h : ¬ d < n) :
    device_code_poll i d n (PollResponse.err "authorization_pending" :: rest) =
      { outcome := (device_code_poll i d (n + i) rest).outcome,
        pollTimes := (n + i) :: (device_code_poll i d (n + i) rest).pollTimes } := by
  simp [device_code_poll, h]

theorem device_code_poll_slow_down (i d n : Nat) (rest : List PollResponse)
    (h : ¬ d < n) :
    device_code_poll i d n (PollResponse.err "slow_down" :: rest) =
      { outcome := (device_code_poll i d (n + i + 5) rest).outcome,
        pollTimes := (n + i) :: (device_code_poll i d (n + i + 5) rest).pollTimes } := by
  simp [device_code_poll, h]

/-- C9: in the device-code poll loop, an `authorization_pending` error
makes the loop poll once and continue from `now + interval`; a `slow_down`
error makes it poll once and continue from `now + interval + 5` — an
extra 5-second sleep, so the delay before the next poll grows from
`interval` to `interval + 5` seconds, as the last two conjuncts make
observable on the poll instants; any other error response terminates the
flow as a fatal authentication error; and once past the server-provided
deadline the loop terminates with the device-code-expired error before
polling again. -/
theorem C9_device_code_poll_loop (interval deadline now : Nat) (e : String)
    (r2 : PollResponse) (rest : List PollResponse) :
    (∀ (n2 : Nat) (resps : List PollResponse), deadline < n2 →
      device_code_poll interval deadline n2 resps =
        { outcome := PollOutcome.expired, pollTimes := [] }) ∧
    (¬ deadline < now →
      device_code_poll interval deadline now
          (PollResponse.err "authorization_pending" :: rest) =
        { outcome := (device_code_poll interval deadline (now + interval) rest).outcome,
          pollTimes := (now + interval) ::
            (device_code_poll interval deadline (now + interval) rest).pollTimes }) ∧
    (¬ deadline < now →
      device_code_poll interval deadline now (PollResponse.err "slow_down" :: rest) =
        { outcome :=
            (device_code_poll interval deadline (now + interval + 5) rest).outcome,
          pollTimes := (now + interval) ::
            (device_code_poll interval deadline (now + interval + 5) rest).pollTimes }) ∧
    (¬ deadline < now → e ≠ "authorization_pending" → e ≠ "slow_down" →
      device_code_poll interval deadline now (PollResponse.err e :: rest) =
        { outcome := PollOutcome.fatalError e, pollTimes := [now + interval] }) ∧
    (¬ deadline < now → ¬ deadline < now + interval →
      (device_code_poll interval deadline now
          (PollResponse.err "authorization_pending" :: r2 :: rest)).pollTimes.take 2 =
        [now + interval, now + interval + interval]) ∧
    (¬ deadline < now → ¬ deadline < now + interval + 5 →
      (device_code_poll interval deadline now
          (PollResponse.err "slow_down" :: r2 :: rest)).pollTimes.take 2 =
        [now + interval, now + interval + 5 + interval]) := by
  refine ⟨?_, ?_, ?_, ?_, ?_, ?_⟩
  · intro n2 resps h
    cases resps <;> simp [device_code_poll, h]
  · intro h
    exact device_code_poll_pending interval deadline now rest h
  · intro h
    exact device_code_poll_slow_down interval deadline now rest h
  · intro h h1 h2
    simp [device_code_poll, h, h1, h2]
  · intro h h'
    obtain ⟨tl, htl⟩ := device_code_poll_head interval deadline (now + interval) r2 rest h'
    rw [device_code_poll_pending interval deadline now (r2 :: rest) h]
    simp [htl]
  · intro h h'
    obtain ⟨tl, htl⟩ :=
      device_code_poll_head interval deadline (now + interval + 5) r2 rest h'
    rw [device_code_poll_slow_down interval deadline now (r2 :: rest) h]
    simp [htl]

/-- Witness for C9: concrete poll traces with interval 3 and deadline 100:
expiry past the deadline, pending then success (gap 3), slow-down then
success (gap 8 = 3 + 5), and a fatal error response. -/
theorem C9_device_code_poll_loop_witness :
    device_code_poll 3 100 200 [PollResponse.success] =
      { outcome := PollOutcome.expired, pollTimes := [] } ∧
    device_code_poll 3 100 0 [PollResponse.err "authorization_pending",
        PollResponse.success] =
      { outcome := PollOutcome.authenticated, pollTimes := [3, 6] } ∧
    device_code_poll 3 100 0 [PollResponse.err "slow_down", PollResponse.success] =
      { outcome := PollOutcome.authenticated, pollTimes := [3, 11] } ∧
    device_code_poll 3 100 0 [PollResponse.err "bad_verification_code",
        PollResponse.success] =
      { outcome := PollOutcome.fatalError "bad_verification_code",
        pollTimes := [3] } := by
  have h := C9_device_code_poll_loop 3 100 0 "bad_verification_code"
    PollResponse.success [PollResponse.success]
  refine ⟨h.1 200 [PollResponse.success] (by decide), ?_, ?_,
    h.2.2.2.1 (by decide) (by decide) (by decide)⟩
  · rw [h.2.1 (by decide)]
    decide
  · rw [h.2.2.1 (by decide)]
    decide

/-! ## Claim C2 — supporting lemmas -/

theorem lookupEntry_mem (p : String) (c : PendingBackup) :
    ∀ l : Entries, lookupEntry p l = some c → (p, c) ∈ l := by
  intro l
  induction l with
  | nil => intro h; simp [lookupEntry] at h
  | cons hd tl ih =>
      obtain ⟨k, v⟩ := hd
      intro h
      by_cases hk : k = p
      · subst hk
        simp [lookupEntry] at h
        subst h
        exact List.mem_cons_self _ _
      · simp [lookupEntry, hk] at h
        exact List.mem_cons_of_mem _ (ih h)

theorem lookupEntry_eq_of_mem_nodup (p : String) (c : PendingBackup) :
    ∀ l : Entries, (p, c) ∈ l → (l.map Prod.fst).Nodup → lookupEntry p l = some c := by
  intro l
  induction l with
  | nil => intro h; simp at h
  | cons hd tl ih =>
      obtain ⟨k, v⟩ := hd
      intro hmem hnd
      simp only [List.map_cons, List.nodup_cons] at hnd
      rcases List.mem_cons.mp hmem with heq | htl
      · cases heq
        simp [lookupEntry]
      · have hk : k ≠ p := by
          intro hkp
          subst hkp
          exact hnd.1 (List.mem_map.mpr ⟨(k, c), htl, rfl⟩)
        simp [lookupEntry, hk]
        exact ih htl hnd.2

theorem map_fst_modifyEntry (p : String) (f : PendingBackup → PendingBackup) :
    ∀ l : Entries, (modifyEntry p f l).map Prod.fst = l.map Prod.fst := by
  intro l
  induction l with
  | nil => simp [modifyEntry]
  | cons hd tl ih =>
      obtain ⟨k, v⟩ := hd
      by_cases hk : k = p <;> simp [modifyEntry, hk, ih]

theorem mem_modifyEntry (p : String) (f : PendingBackup → PendingBackup) :
    ∀ (l : Entries) (kv : String × PendingBackup), kv ∈ modifyEntry p f l →
      kv ∈ l ∨ ∃ v, (kv.1, v) ∈ l ∧ kv.2 = f v := by
  intro l
  induction l with
  | nil => intro kv h; simp [modifyEntry] at h
  | cons hd tl ih =>
      obtain ⟨k, v⟩ := hd
      intro kv h
      by_cases hk : k = p
      · simp only [modifyEntry, if_pos hk] at h
        rcases List.mem_cons.mp h with heq | htl
        · subst heq
          exact Or.inr ⟨v, List.mem_cons_self _ _, rfl⟩
        · exact Or.inl (List.mem_cons_of_mem _ htl)
      · simp only [modifyEntry, if_neg hk] at h
        rcases List.mem_cons.mp h with heq | htl
        · exact Or.inl (heq ▸ List.mem_cons_self _ _)
        · rcases ih kv htl with hin | ⟨w, hw, he⟩
          · exact Or.inl (List.mem_cons_of_mem _ hin)
          · exact Or.inr ⟨w, List.mem_cons_of_mem _ hw, he⟩

theorem mem_removeEntry (p : String) :
    ∀ (l : Entries) (kv : String × PendingBackup), kv ∈ removeEntry p l → kv ∈ l := by
  intro l
  induction l with
  | nil => intro kv h; simp [removeEntry] at h
  | cons hd tl ih =>
      obtain ⟨k, v⟩ := hd
      intro kv h
      by_cases hk : k = p
      · simp only [removeEntry, if_pos hk] at h
        exact List.mem_cons_of_mem _ h
      · simp only [removeEntry, if_neg hk] at h
        rcases List.mem_cons.mp h with heq | htl
        · exact heq ▸ List.mem_cons_self _ _
        · exact List.mem_cons_of_mem _ (ih kv htl)

theorem map_fst_removeEntry_sublist (p : String) :
    ∀ l : Entries, List.Sublist ((removeEntry p l).map Prod.fst) (l.map Prod.fst) := by
  intro l
  induction l with
  | nil => simp [removeEntry]
  | cons hd tl ih =>
      obtain ⟨k, v⟩ := hd
      by_cases hk : k = p
      · simp only [removeEntry, if_pos hk, List.map_cons]
        exact (List.sublist_cons_self _ _)
      · simp only [removeEntry, if_neg hk, List.map_cons]
        exact ih.cons₂ _

theorem WFQueue_modify (s : QueueState) (p : String)
    (f : PendingBackup → PendingBackup) (hf : ∀ b, (f b).local_path = b.local_path)
    (hwf : WFQueue s) :
    WFQueue { s with entries := modifyEntry p f s.entries } := by
  constructor
  · intro kv hkv
    rcases mem_modifyEntry p f s.entries kv hkv with hin | ⟨v, hv, he⟩
    · exact hwf.1 kv hin
    · rw [he, hf v]
      exact hwf.1 (kv.1, v) hv
  · simpa [map_fst_modifyEntry] using hwf.2

theorem WFQueue_save (s : QueueState) (hwf : WFQueue s) :
    WFQueue (BackupQueue.save s) := hwf

theorem WFQueue_mark_failed (s : QueueState) (p e : String) (hwf : WFQueue s) :
    WFQueue (BackupQueue.mark_failed s p e) := by
  cases hm : lookupEntry p s.entries with
  | none => simpa [BackupQueue.mark_failed, hm] using hwf
  | some b =>
      simp only [BackupQueue.mark_failed, hm]
      exact WFQueue_modify s p _ (fun b => rfl) hwf

theorem WFQueue_mark_in_progress (s : QueueState) (p : String) (hwf : WFQueue s) :
    WFQueue (BackupQueue.mark_in_progress s p) := by
  cases hm : lookupEntry p s.entries with
  | none => simpa [BackupQueue.mark_in_progress, hm] using hwf
  | some b =>
      simp only [BackupQueue.mark_in_progress, hm]
      exact WFQueue_modify s p _ (fun b => rfl) hwf

theorem WFQueue_reset_to_pending (s : QueueState) (p : String) (hwf : WFQueue s) :
    WFQueue (BackupQueue.reset_to_pending s p) := by
  cases hm : lookupEntry p s.entries with
  | none => simpa [BackupQueue.reset_to_pending, hm] using hwf
  | some b =>
      simp only [BackupQueue.reset_to_pending, hm]
      exact WFQueue_modify s p _ (fun b => rfl) hwf

theorem WFQueue_remove (s : QueueState) (p : String) (hwf : WFQueue s) :
    WFQueue (BackupQueue.remove s p) := by
  constructor
  · intro kv hkv
    exact hwf.1 kv (mem_removeEntry p s.entries kv hkv)
  · exact hwf.2.sublist (map_fst_removeEntry_sublist p s.entries)

theorem WFQueue_processOne (files : List String) (uploadOk : String → Bool)
    (uploadErr : String → String) (max_retries : Nat) (acc : WorkerPassAcc)
    (q : String) (hwf : WFQueue acc.state) :
    WFQueue (processOne files uploadOk uploadErr max_retries acc q).state := by
  unfold processOne
  by_cases hq : q ∈ files
  · simp only [if_pos hq]
    cases lookupEntry q acc.state.entries with
    | none => exact hwf
    | some backup =>
        by_cases hr : max_retries ≤ backup.retry_count
        · simpa [hr] using hwf
        · have h1 := WFQueue_mark_in_progress acc.state q hwf
          by_cases hu : uploadOk q
          · simpa [hr, hu] using WFQueue_remove _ q h1
          · simpa [hr, hu] using WFQueue_mark_failed _ q (uploadErr q) h1
  · simp only [if_neg hq]
    exact WFQueue_mark_failed acc.state q "file missing" hwf

theorem WFQueue_worker_fold (files : List String) (uploadOk : String → Bool)
    (uploadErr : String → String) (max_retries : Nat) :
    ∀ (l : List String) (acc : WorkerPassAcc), WFQueue acc.state →
      WFQueue ((l.foldl (processOne files uploadOk uploadErr max_retries) acc)).state := by
  intro l
  induction l with
  | nil => intro acc h; simpa using h
  | cons q tl ih =>
      intro acc h
      simpa using ih _ (WFQueue_processOne files uploadOk uploadErr max_retries acc q h)

theorem processOne_frame (files : List String) (uploadOk : String → Bool)
    (uploadErr : String → String) (max_retries : Nat) (acc : WorkerPassAcc)
    (q p : String) (hqp : p ≠ q) :
    lookupEntry p (processOne files uploadOk uploadErr max_retries acc q).state.entries =
      lookupEntry p acc.state.entries := by
  unfold processOne
  by_cases hq : q ∈ files
  · simp only [if_pos hq]
    cases lookupEntry q acc.state.entries with
    | none => rfl
    | some backup =>
        by_cases hr : max_retries ≤ backup.retry_count
        · simp [hr]
        · by_cases hu : uploadOk q
          · simp only [hr, if_false, hu, if_true]
            rw [lookupEntry_remove _ q p hqp, lookupEntry_mark_in_progress,
              if_neg hqp]
          · simp only [hr, if_false, hu]
            rw [if_neg Bool.false_ne_true, lookupEntry_mark_failed, if_neg hqp,
              lookupEntry_mark_in_progress, if_neg hqp]
  · simp only [if_neg hq]
    rw [lookupEntry_mark_failed, if_neg hqp]

theorem worker_fold_frame (files : List String) (uploadOk : String → Bool)
    (uploadErr : String → String) (max_retries : Nat) :
    ∀ (l : List String) (acc : WorkerPassAcc) (p : String), p ∉ l →
      lookupEntry p ((l.foldl (processOne files uploadOk uploadErr max_retries) acc)).state.entries =
      lookupEntry p acc.state.entries := by
  intro l
  induction l with
  | nil => intro acc p h; rfl
  | cons q tl ih =>
      intro acc p h
      have hqp : p ≠ q := fun he => h (he ▸ List.mem_cons_self _ _)
      have htl : p ∉ tl := fun hm => h (List.mem_cons_of_mem _ hm)
      rw [List.foldl_cons, ih _ p htl,
        processOne_frame files uploadOk uploadErr max_retries acc q p hqp]

theorem processOne_missing (files : List String) (uploadOk : String → Bool)
    (uploadErr : String → String) (max_retries : Nat) (acc : WorkerPassAcc)
    (p : String) (hp : p ∉ files) :
    processOne files uploadOk uploadErr max_retries acc p =
      { acc with state := BackupQueue.mark_failed acc.state p "file missing" } := by
  simp [processOne, hp]

theorem processOne_attempted (files : List String) (uploadOk : String → Bool)
    (uploadErr : String → String) (max_retries : Nat) (acc : WorkerPassAcc)
    (q : String) :
    (processOne files uploadOk uploadErr max_retries acc q).attempted = acc.attempted ∨
    (processOne files uploadOk uploadErr max_retries acc q).attempted =
      acc.attempted ++ [q] := by
  unfold processOne
  by_cases hq : q ∈ files
  · simp only [if_pos hq]
    cases lookupEntry q acc.state.entries with
    | none => exact Or.inl rfl
    | some backup =>
        by_cases hr : max_retries ≤ backup.retry_count
        · simp [hr]
        · by_cases hu : uploadOk q <;> simp [hr, hu]
  · simp [if_neg hq]

theorem worker_fold_attempted (files : List String) (uploadOk : String → Bool)
    (uploadErr : String → String) (max_retries : Nat) (p : String) (hp : p ∉ files) :
    ∀ (l : List String) (acc : WorkerPassAcc), p ∉ acc.attempted →
      p ∉ ((l.foldl (processOne files uploadOk uploadErr max_retries) acc)).attempted := by
  intro l
  induction l with
  | nil => intro acc h; simpa using h
  | cons q tl ih =>
      intro acc h
      rw [List.foldl_cons]
      apply ih
      by_cases hqp : q = p
      · subst hqp
        rw [processOne_missing files uploadOk uploadErr max_retries acc q hp]
        exact h
      · rcases processOne_attempted files uploadOk uploadErr max_retries acc q with
          he | he
        · rw [he]; exact h
        · rw [he]
          intro hmem
          rcases List.mem_append.mp hmem with hm | hm
          · exact h hm
          · have hpq : p = q := by simpa using hm
            exact hqp hpq.symm

theorem worker_fold_hit (files : List String) (uploadOk : String → Bool)
    (uploadErr : String → String) (max_retries : Nat) (p : String)
    (hp : p ∉ files) (b : PendingBackup) :
    ∀ (l : List String) (acc : WorkerPassAcc), l.Nodup → p ∈ l →
      lookupEntry p acc.state.entries = some b →
      lookupEntry p ((l.foldl (processOne files uploadOk uploadErr max_retries) acc)).state.entries =
        some { b with status := BackupStatus.Failed "file missing",
                      retry_count := b.retry_count + 1 } := by
  intro l
  induction l with
  | nil => intro acc _ hmem; simp at hmem
  | cons q tl ih =>
      intro acc hnd hmem hb
      simp only [List.nodup_cons] at hnd
      by_cases hpq : p = q
      · subst hpq
        have hptl : p ∉ tl := hnd.1
        rw [List.foldl_cons,
          processOne_missing files uploadOk uploadErr max_retries acc p hp,
          worker_fold_frame files uploadOk uploadErr max_retries tl _ p hptl]
        simp only
        rw [lookupEntry_mark_failed, if_pos rfl, hb]
        rfl
      · have hptl : p ∈ tl := by
          rcases List.mem_cons.mp hmem with he | ht
          · exact absurd he hpq
          · exact ht
        rw [List.foldl_cons]
        apply ih _ hnd.2 hptl
        rw [processOne_frame files uploadOk uploadErr max_retries acc q p hpq]
        exact hb

/-! Path snapshots: the pending and failed path lists are duplicate-free
path lists over a well-formed queue, and membership matches the entry's
status. -/

theorem pendingPaths_eq (s : QueueState) :
    pendingPaths s =
      (s.entries.filter (fun kv => decide (kv.2.status = BackupStatus.Pending))).map
        (fun kv => kv.2.local_path) := by
  simp [pendingPaths, BackupQueue.get_pending, List.map_map]

theorem failedPaths_eq (s : QueueState) (max_retries : Nat) :
    (BackupQueue.get_failed s max_retries).map (fun b => b.local_path) =
      (s.entries.filter (fun kv =>
        (match kv.2.status with | BackupStatus.Failed _ => true | _ => false)
          && decide (kv.2.retry_count < max_retries))).map
        (fun kv => kv.2.local_path) := by
  simp [BackupQueue.get_failed, List.map_map]

theorem filter_map_path_nodup (s : QueueState) (hwf : WFQueue s)
    (q : String × PendingBackup → Bool) :
    ((s.entries.filter q).map (fun kv => kv.2.local_path)).Nodup := by
  have h1 : (s.entries.filter q).map (fun kv => kv.2.local_path) =
      (s.entries.filter q).map Prod.fst :=
    List.map_congr_left (fun kv hkv => (hwf.1 kv (List.mem_of_mem_filter hkv)).symm)
  rw [h1]
  exact hwf.2.sublist ((List.filter_sublist _).map _)

theorem mem_filter_map_path (s : QueueState) (hwf : WFQueue s)
    (q : String × PendingBackup → Bool) (p : String) (b : PendingBackup)
    (hb : lookupEntry p s.entries = some b) (hq : q (p, b) = true) :
    p ∈ (s.entries.filter q).map (fun kv => kv.2.local_path) := by
  have hmem := lookupEntry_mem p b s.entries hb
  have hpath : b.local_path = p := (hwf.1 (p, b) hmem).symm
  exact List.mem_map.mpr ⟨(p, b), List.mem_filter.mpr ⟨hmem, hq⟩, hpath⟩

theorem not_mem_filter_map_path (s : QueueState) (hwf : WFQueue s)
    (q : String × PendingBackup → Bool) (p : String) (b : PendingBackup)
    (hb : lookupEntry p s.entries = some b) (hq : q (p, b) = false) :
    p ∉ (s.entries.filter q).map (fun kv => kv.2.local_path) := by
  intro hmem
  obtain ⟨kv, hkvf, hkvp⟩ := List.mem_map.mp hmem
  obtain ⟨k1, v1⟩ := kv
  have hkvmem := List.mem_of_mem_filter hkvf
  have hkey : k1 = p := (hwf.1 (k1, v1) hkvmem).trans hkvp
  subst hkey
  have hlk : lookupEntry k1 s.entries = some v1 :=
    lookupEntry_eq_of_mem_nodup k1 v1 s.entries hkvmem hwf.2
  rw [hb] at hlk
  cases hlk
  have := (List.mem_filter.mp hkvf).2
  rw [hq] at this
  cases this

/-! The reset phase (`reset_failed_for_retry`). -/

theorem reset_fold_frame :
    ∀ (l : List String) (s : QueueState) (p : String), p ∉ l →
      lookupEntry p ((l.foldl (fun st q => BackupQueue.reset_to_pending st q) s)).entries =
        lookupEntry p s.entries := by
  intro l
  induction l with
  | nil => intro s p _; rfl
  | cons q tl ih =>
      intro s p h
      have hqp : p ≠ q := fun he => h (he ▸ List.mem_cons_self _ _)
      rw [List.foldl_cons, ih _ p (fun hm => h (List.mem_cons_of_mem _ hm)),
        lookupEntry_reset_to_pending, if_neg hqp]

theorem reset_fold_hit (p : String) :
    ∀ (l : List String) (s : QueueState), l.Nodup → p ∈ l →
      lookupEntry p ((l.foldl (fun st q => BackupQueue.reset_to_pending st q) s)).entries =
        (lookupEntry p s.entries).map
          (fun b => { b with status := BackupStatus.Pending }) := by
  intro l
  induction l with
  | nil => intro s _ hmem; simp at hmem
  | cons q tl ih =>
      intro s hnd hmem
      simp only [List.nodup_cons] at hnd
      by_cases hpq : p = q
      · subst hpq
        rw [List.foldl_cons, reset_fold_frame tl _ p hnd.1,
          lookupEntry_reset_to_pending, if_pos rfl]
      · have hptl : p ∈ tl := by
          rcases List.mem_cons.mp hmem with he | ht
          · exact absurd he hpq
          · exact ht
        rw [List.foldl_cons, ih _ hnd.2 hptl,
          lookupEntry_reset_to_pending, if_neg hpq]

theorem reset_failed_lookup_retryable (max_retries : Nat) (s : QueueState)
    (p : String) (c : PendingBackup) (hwf : WFQueue s)
    (hc : lookupEntry p s.entries = some c)
    (hq : ((match c.status with | BackupStatus.Failed _ => true | _ => false)
        && decide (c.retry_count < max_retries)) = true) :
    lookupEntry p (reset_failed_for_retry max_retries s).entries =
      some { c with status := BackupStatus.Pending } := by
  unfold reset_failed_for_retry
  rw [show ((BackupQueue.get_failed s max_retries).map (·.local_path)) =
      (BackupQueue.get_failed s max_retries).map (fun b => b.local_path) from rfl,
    failedPaths_eq]
  rw [reset_fold_hit p _ s
    (filter_map_path_nodup s hwf _)
    (mem_filter_map_path s hwf _ p c hc hq), hc]
  rfl

theorem reset_failed_lookup_exhausted (max_retries : Nat) (s : QueueState)
    (p : String) (c : PendingBackup) (hwf : WFQueue s)
    (hc : lookupEntry p s.entries = some c)
    (hq : ((match c.status with | BackupStatus.Failed _ => true | _ => false)
        && decide (c.retry_count < max_retries)) = false) :
    lookupEntry p (reset_failed_for_retry max_retries s).entries = some c := by
  unfold reset_failed_for_retry
  rw [show ((BackupQueue.get_failed s max_retries).map (·.local_path)) =
      (BackupQueue.get_failed s max_retries).map (fun b => b.local_path) from rfl,
    failedPaths_eq]
  rw [reset_fold_frame _ s p
    (not_mem_filter_map_path s hwf _ p c hc hq), hc]

/-! ## Claim C2 -/

/-- C2 counterexample: an entry whose local file is missing is not left
permanently stuck in `Failed` — after the very worker pass that marks it
`Failed "file missing"`, `reset_failed_for_retry` has already reset it to
`Pending` (its `retry_count` is 1, below the maximum of 3), so it will be
picked up again by the next pass. -/
theorem C2_file_missing_entry_is_reset_to_pending :
    lookupEntry "a"
        (run_worker_pass [] (fun _ => true) (fun _ => "upload failed") 3
          demoQueue).state.entries =
      some { demoBackup with retry_count := 1, status := BackupStatus.Pending } := by
  decide

/-- C2 amended: for an entry that is `Pending` at the start of a worker
pass and whose local file is missing, the pass attempts no upload for it
and marks it `Failed "file missing"`, incrementing `retry_count`; the
end-of-pass reset then returns it to `Pending` whenever the new
`retry_count` is still below `max_retries`, so it is re-examined (though
never uploaded while the file stays missing) on later passes, and it
remains permanently `Failed` only once `retry_count` reaches
`max_retries`. -/
theorem C2_missing_file_no_upload_and_bounded_retry (files : List String)
    (uploadOk : String → Bool) (uploadErr : String → String) (max_retries : Nat)
    (s : QueueState) (p : String) (b : PendingBackup) (hwf : WFQueue s)
    (hb : lookupEntry p s.entries = some b)
    (hst : b.status = BackupStatus.Pending) (hp : p ∉ files) :
    p ∉ (run_worker_pass files uploadOk uploadErr max_retries s).attempted ∧
    lookupEntry p
        (run_worker_pass files uploadOk uploadErr max_retries s).state.entries =
      some { b with
        status := if b.retry_count + 1 < max_retries then BackupStatus.Pending
                  else BackupStatus.Failed "file missing",
        retry_count := b.retry_count + 1 } := by
  have hpend : p ∈ pendingPaths s := by
    rw [pendingPaths_eq]
    exact mem_filter_map_path s hwf _ p b hb (by simp [hst])
  have hpnd : (pendingPaths s).Nodup := by
    rw [pendingPaths_eq]
    exact filter_map_path_nodup s hwf _
  have hfold := worker_fold_hit files uploadOk uploadErr max_retries p hp b
    (pendingPaths s) ⟨s, []⟩ hpnd hpend hb
  have hwf1 := WFQueue_worker_fold files uploadOk uploadErr max_retries
    (pendingPaths s) ⟨s, []⟩ hwf
  constructor
  · have := worker_fold_attempted files uploadOk uploadErr max_retries p hp
      (pendingPaths s) ⟨s, []⟩ (by simp)
    simpa [run_worker_pass] using this
  · show lookupEntry p (reset_failed_for_retry max_retries
        ((pendingPaths s).foldl (processOne files uploadOk uploadErr max_retries)
          ⟨s, []⟩).state).entries = _
    by_cases hlt : b.retry_count + 1 < max_retries
    · rw [reset_failed_lookup_retryable max_retries _ p _ hwf1 hfold
        (by simp [hlt]), if_pos hlt]
    · rw [reset_failed_lookup_exhausted max_retries _ p _ hwf1 hfold
        (by simp [hlt]), if_neg hlt]

/-- Witness for the amended C2 at a concrete queue with one pending entry
whose file is missing. -/
theorem C2_missing_file_no_upload_and_bounded_retry_witness :
    "a" ∉ (run_worker_pass [] (fun _ => true) (fun _ => "upload failed") 3
        demoQueue).attempted ∧
    lookupEntry "a"
        (run_worker_pass [] (fun _ => true) (fun _ => "upload failed") 3
          demoQueue).state.entries =
      some { demoBackup with
        status := if demoBackup.retry_count + 1 < 3 then BackupStatus.Pending
                  else BackupStatus.Failed "file missing",
        retry_count := demoBackup.retry_count + 1 } :=
  C2_missing_file_no_upload_and_bounded_retry [] (fun _ => true)
    (fun _ => "upload failed") 3 demoQueue "a" demoBackup
    (by constructor
        · intro kv hkv
          simp [demoQueue, demoBackup, mkPendingBackup] at hkv
          simp [hkv]
        · decide)
    (by decide) (by decide) (by decide)



/-! ## Claim C8 — supporting lemmas -/

theorem getLast?_mem_of_eq {α : Type} (l : List α) (a : α)
    (h : l.getLast? = some a) : a ∈ l := by
  have h2 : a ∈ l.getLast? := by rw [h]; exact Option.mem_some_self a
  obtain ⟨hne, heq⟩ := List.mem_getLast?_eq_getLast h2
  exact heq ▸ List.getLast_mem hne

theorem fetchMessages_mem_lt (channel : List Msg) (c : Nat) (m : Msg)
    (hm : m ∈ fetchMessages channel (some c)) : m.id < c := by
  have h1 : m ∈ channel.filter (fun m => decide (m.id < c)) :=
    List.mem_of_mem_take hm
  exact of_decide_eq_true (List.mem_filter.mp h1).2

theorem filter_expired_subset (messages : List Msg) (cutoff : Nat) (m : Msg)
    (hm : m ∈ filter_expired_messages messages cutoff) : m ∈ messages :=
  List.mem_of_mem_filter hm

theorem pag_head (channel : List Msg) (cutoff : Nat) :
    ∀ (fuel : Nat) (cursor : Option Nat) (expired : List Msg), 0 < fuel →
      ∃ tl, (paginationLoop channel cutoff fuel cursor expired).fetchCursors =
        cursor :: tl := by
  intro fuel cursor expired hf
  cases fuel with
  | zero => omega
  | succ n =>
      simp only [paginationLoop]
      split
      · exact ⟨[], rfl⟩
      · split
        · exact ⟨[], rfl⟩
        · split
          · exact ⟨[], rfl⟩
          · exact ⟨_, rfl⟩

theorem pag_isSome (channel : List Msg) (cutoff : Nat) :
    ∀ (fuel : Nat) (cursor : Option Nat) (expired : List Msg),
      (paginationLoop channel cutoff fuel cursor expired).reachedEnd = false →
      (paginationLoop channel cutoff fuel cursor expired).cursorFinal.isSome = true ∨
      ((paginationLoop channel cutoff fuel cursor expired).cursorFinal = cursor ∧
        (paginationLoop channel cutoff fuel cursor expired).fetchCursors = []) := by
  intro fuel
  induction fuel with
  | zero => intro cursor expired _; exact Or.inr ⟨rfl, rfl⟩
  | succ n ih =>
      intro cursor expired hre
      simp only [paginationLoop] at hre ⊢
      by_cases hemp : (fetchMessages channel cursor).isEmpty = true
      · rw [if_pos hemp] at hre
        simp at hre
      · rw [if_neg hemp] at hre ⊢
        by_cases htar : TARGET_EXPIRED_MESSAGES ≤
            (expired ++ filter_expired_messages (fetchMessages channel cursor) cutoff).length
        · rw [if_pos htar] at hre ⊢
          left
          cases hlast : ((expired ++
              filter_expired_messages (fetchMessages channel cursor) cutoff).take
                TARGET_EXPIRED_MESSAGES).getLast? with
          | none =>
              rw [List.getLast?_eq_none_iff, List.take_eq_nil_iff] at hlast
              have htpos : (0 : Nat) < TARGET_EXPIRED_MESSAGES := by decide
              rcases hlast with h | h
              · omega
              · rw [h] at htar
                simp at htar
                omega
          | some oldest => simp [hlast]
        · rw [if_neg htar] at hre ⊢
          by_cases hsz : (fetchMessages channel cursor).length < MAX_MESSAGES_PER_FETCH
          · rw [if_pos (decide_eq_true hsz)] at hre
            simp at hre
          · have hd : ¬ (decide ((fetchMessages channel cursor).length <
                MAX_MESSAGES_PER_FETCH) = true) := by
              simp [hsz]
            rw [if_neg hd] at hre ⊢
            rcases ih _ _ hre with hs | ⟨hfin, _⟩
            · exact Or.inl hs
            · left
              cases hl : (fetchMessages channel cursor).getLast? with
              | none =>
                  rw [List.getLast?_eq_none_iff] at hl
                  simp [hl] at hemp
              | some oldest =>
                  simp only [hl] at hfin
                  simp [hfin]

theorem pag_bound (channel : List Msg) (cutoff : Nat) (v : Nat) :
    ∀ (fuel : Nat) (cursor : Option Nat) (expired : List Msg),
      (∃ x, cursor = some x ∧ x ≤ v) → (∀ m ∈ expired, m.id < v) →
      (paginationLoop channel cutoff fuel cursor expired).reachedEnd = false →
      (∃ y, (paginationLoop channel cutoff fuel cursor expired).cursorFinal = some y ∧
        y < v) ∨
      ((paginationLoop channel cutoff fuel cursor expired).cursorFinal = cursor ∧
        (paginationLoop channel cutoff fuel cursor expired).fetchCursors = []) := by
  intro fuel
  induction fuel with
  | zero => intro cursor expired _ _ _; exact Or.inr ⟨rfl, rfl⟩
  | succ n ih =>
      intro cursor expired hx hacc hre
      obtain ⟨x, hxc, hxv⟩ := hx
      subst hxc
      have hmsg : ∀ m ∈ fetchMessages channel (some x), m.id < v := by
        intro m hm
        exact lt_of_lt_of_le (fetchMessages_mem_lt channel x m hm) hxv
      have hexp1 : ∀ m ∈ expired ++
          filter_expired_messages (fetchMessages channel (some x)) cutoff, m.id < v := by
        intro m hm
        rcases List.mem_append.mp hm with h1 | h1
        · exact hacc m h1
        · exact hmsg m (filter_expired_subset _ _ _ h1)
      simp only [paginationLoop] at hre ⊢
      by_cases hemp : (fetchMessages channel (some x)).isEmpty = true
      · rw [if_pos hemp] at hre
        simp at hre
      · rw [if_neg hemp] at hre ⊢
        by_cases htar : TARGET_EXPIRED_MESSAGES ≤
            (expired ++ filter_expired_messages (fetchMessages channel (some x)) cutoff).length
        · rw [if_pos htar] at hre ⊢
          left
          cases hlast : ((expired ++
              filter_expired_messages (fetchMessages channel (some x)) cutoff).take
                TARGET_EXPIRED_MESSAGES).getLast? with
          | none =>
              rw [List.getLast?_eq_none_iff, List.take_eq_nil_iff] at hlast
              have htpos : (0 : Nat) < TARGET_EXPIRED_MESSAGES := by decide
              rcases hlast with h | h
              · omega
              · rw [h] at htar
                simp at htar
                omega
          | some oldest =>
              refine ⟨oldest.id, by simp [hlast], ?_⟩
              exact hexp1 oldest (List.mem_of_mem_take
                (getLast?_mem_of_eq _ _ hlast))
        · rw [if_neg htar] at hre ⊢
          by_cases hsz : (fetchMessages channel (some x)).length < MAX_MESSAGES_PER_FETCH
          · rw [if_pos (decide_eq_true hsz)] at hre
            simp at hre
          · have hd : ¬ (decide ((fetchMessages channel (some x)).length <
                MAX_MESSAGES_PER_FETCH) = true) := by
              simp [hsz]
            rw [if_neg hd] at hre ⊢
            cases hl : (fetchMessages channel (some x)).getLast? with
            | none =>
                rw [List.getLast?_eq_none_iff] at hl
                simp [hl] at hemp
            | some oldest =>
                have holt : oldest.id < v :=
                  hmsg oldest (getLast?_mem_of_eq _ _ hl)
                simp only [hl] at hre ⊢
                rcases ih (some oldest.id) _
                  ⟨oldest.id, rfl, le_of_lt holt⟩ hexp1 hre with
                  ⟨y, hy, hyv⟩ | ⟨hfin, _⟩
                · exact Or.inl ⟨y, hy, hyv⟩
                · exact Or.inl ⟨oldest.id, by simp [hfin], holt⟩

theorem pag_partial_iff (channel : List Msg) (cutoff : Nat) :
    ∀ (fuel : Nat) (cursor : Option Nat) (expired : List Msg),
      ((paginationLoop channel cutoff fuel cursor expired).reachedEnd = true) ↔
      (∃ c ∈ (paginationLoop channel cutoff fuel cursor expired).fetchCursors,
        (fetchMessages channel c).length < MAX_MESSAGES_PER_FETCH) := by
  intro fuel
  induction fuel with
  | zero =>
      intro cursor expired
      simp [paginationLoop]
  | succ n ih =>
      intro cursor expired
      simp only [paginationLoop]
      by_cases hemp : (fetchMessages channel cursor).isEmpty = true
      · rw [if_pos hemp]
        have h0 : (fetchMessages channel cursor).length = 0 := by
          rw [List.isEmpty_iff.mp hemp]
          rfl
        constructor
        · intro _
          exact ⟨cursor, by simp, by rw [h0]; decide⟩
        · intro _
          rfl
      · rw [if_neg hemp]
        by_cases htar : TARGET_EXPIRED_MESSAGES ≤
            (expired ++ filter_expired_messages (fetchMessages channel cursor) cutoff).length
        · rw [if_pos htar]
          simp
        · rw [if_neg htar]
          by_cases hsz : (fetchMessages channel cursor).length < MAX_MESSAGES_PER_FETCH
          · rw [if_pos (decide_eq_true hsz)]
            constructor
            · intro _
              exact ⟨cursor, by simp, hsz⟩
            · intro _
              rfl
          · have hd : ¬ (decide ((fetchMessages channel cursor).length <
                MAX_MESSAGES_PER_FETCH) = true) := by
              simp [hsz]
            rw [if_neg hd]
            constructor
            · intro h
              obtain ⟨c, hc, hlt⟩ := (ih _ _).mp h
              exact ⟨c, List.mem_cons_of_mem _ hc, hlt⟩
            · rintro ⟨c, hc, hlt⟩
              rcases List.mem_cons.mp hc with heq | hc'
              · subst heq
                exact absurd hlt hsz
              · exact (ih _ _).mpr ⟨c, hc', hlt⟩

theorem pag_chain (channel : List Msg) (cutoff : Nat) :
    ∀ (fuel : Nat) (cursor : Option Nat) (expired : List Msg),
      List.Chain' cursorStep
        (paginationLoop channel cutoff fuel cursor expired).fetchCursors := by
  intro fuel
  induction fuel with
  | zero => intro cursor expired; simp [paginationLoop]
  | succ n ih =>
      intro cursor expired
      simp only [paginationLoop]
      by_cases hemp : (fetchMessages channel cursor).isEmpty = true
      · rw [if_pos hemp]
        simp
      · rw [if_neg hemp]
        by_cases htar : TARGET_EXPIRED_MESSAGES ≤
            (expired ++ filter_expired_messages (fetchMessages channel cursor) cutoff).length
        · rw [if_pos htar]
          simp
        · rw [if_neg htar]
          by_cases hsz : (fetchMessages channel cursor).length < MAX_MESSAGES_PER_FETCH
          · rw [if_pos (decide_eq_true hsz)]
            simp
          · have hd : ¬ (decide ((fetchMessages channel cursor).length <
                MAX_MESSAGES_PER_FETCH) = true) := by
              simp [hsz]
            rw [if_neg hd]
            cases hl : (fetchMessages channel cursor).getLast? with
            | none =>
                rw [List.getLast?_eq_none_iff] at hl
                simp [hl] at hemp
            | some oldest =>
                simp only [hl]
                apply List.chain'_cons'.mpr
                constructor
                · intro b hb
                  cases n with
                  | zero => simp [paginationLoop] at hb
                  | succ m =>
                      obtain ⟨tl, htl⟩ := pag_head channel cutoff (m + 1)
                        (some oldest.id) (expired ++
                          filter_expired_messages (fetchMessages channel cursor) cutoff)
                        (by omega)
                      rw [htl] at hb
                      simp at hb
                      subst hb
                      cases cursor with
                      | none => simp [cursorStep]
                      | some x =>
                          simp only [cursorStep]
                          exact fetchMessages_mem_lt channel x oldest
                            (getLast?_mem_of_eq _ _ hl)
                · exact ih _ _



/-! ## Claim C8 -/

/-- C8: for every terminating (cancellation- and error-free) run of the
pagination part of `run_cleanup`: the persisted cursor is cleared exactly
when some fetched page was smaller than the requested page size of 100
messages (end-of-history, the empty page included); otherwise the
advanced cursor — strictly older than the stored cursor the run started
from — is persisted; and the cursors used by successive fetch rounds move
strictly monotonically to older message ids. -/
theorem C8_pagination_cursor (channel : List Msg) (cutoff : Nat) (c0 : Option Nat) :
    ((run_cleanup_pagination channel cutoff c0).2 = none ↔
      ∃ c ∈ (run_cleanup_pagination channel cutoff c0).1.fetchCursors,
        (fetchMessages channel c).length < MAX_MESSAGES_PER_FETCH) ∧
    (∀ v x, c0 = some v → (run_cleanup_pagination channel cutoff c0).2 = some x →
      x < v) ∧
    List.Chain' cursorStep (run_cleanup_pagination channel cutoff c0).1.fetchCursors := by
  refine ⟨?_, ?_, ?_⟩
  · simp only [run_cleanup_pagination]
    constructor
    · intro hnone
      by_cases hre : (paginationLoop channel cutoff MAX_PAGINATION_ROUNDS c0 []).reachedEnd = true
      · exact (pag_partial_iff channel cutoff _ _ _).mp hre
      · exfalso
        rw [if_neg hre] at hnone
        have hre' : (paginationLoop channel cutoff MAX_PAGINATION_ROUNDS c0 []).reachedEnd = false :=
          Bool.eq_false_iff.mpr hre
        rcases pag_isSome channel cutoff _ c0 [] hre' with hs | ⟨_, hcur⟩
        · rw [hnone] at hs
          simp at hs
        · obtain ⟨tl, htl⟩ := pag_head channel cutoff MAX_PAGINATION_ROUNDS c0 [] (by decide)
          rw [htl] at hcur
          exact List.cons_ne_nil _ _ hcur
    · intro hex
      have hre := (pag_partial_iff channel cutoff _ _ _).mpr hex
      rw [if_pos hre]
  · intro v x h0 hx
    subst h0
    simp only [run_cleanup_pagination] at hx
    by_cases hre : (paginationLoop channel cutoff MAX_PAGINATION_ROUNDS (some v) []).reachedEnd = true
    · rw [if_pos hre] at hx
      cases hx
    · rw [if_neg hre] at hx
      have hre' : (paginationLoop channel cutoff MAX_PAGINATION_ROUNDS (some v) []).reachedEnd = false :=
        Bool.eq_false_iff.mpr hre
      rcases pag_bound channel cutoff v _ (some v) [] ⟨v, rfl, le_refl v⟩
        (by intro m hm; cases hm) hre' with ⟨y, hy, hyv⟩ | ⟨_, hcur⟩
      · rw [hx] at hy
        cases hy
        exact hyv
      · obtain ⟨tl, htl⟩ := pag_head channel cutoff MAX_PAGINATION_ROUNDS (some v) [] (by decide)
        rw [htl] at hcur
        exact absurd hcur (List.cons_ne_nil _ _)
  · simp only [run_cleanup_pagination]
    exact pag_chain channel cutoff _ _ _

/-- Witness for C8: a one-message channel reaching end of history clears
the cursor; a 150-message channel (ids 150..1) with stored cursor 500
persists the advanced cursor 51 after one full page of 100 expired
messages, and 51 < 500. -/
theorem C8_pagination_cursor_witness :
    (run_cleanup_pagination [⟨5, 0⟩] 10 (some 7)).2 = none ∧ (51 : Nat) < 500 := by
  have h1 := C8_pagination_cursor [⟨5, 0⟩] 10 (some 7)
  have h2 := C8_pagination_cursor demoChannel 10 (some 500)
  refine ⟨h1.1.mpr ⟨some 7, by decide, by decide⟩, h2.2.1 500 51 rfl (by decide)⟩


end CleanupBot
